import Mathlib

/-
Verification of the CPEN442 repository core: the write-once flash file
system (src/Simple_File_System/OS_File_System.c), the os_v1 blocking
semaphores and mailbox (src/Preemptive_and_Cooperative_Schedulers/os_v1.c),
and the Color_Show kernel (src/Color_Show/os.c, os.h).

Shallow embedding conventions:
  - uint8_t arrays of length 256 become functions Nat → Nat; indices at or
    above 256 do not exist in the C program and are irrelevant to every
    theorem below.
  - Flash is a byte map Nat → Nat.
  - C loops without an internal bound are embedded with an explicit fuel
    argument; a result of none models the loop failing to terminate
    within that fuel.
  - Functions that mutate globals take the global state as an argument and
    return the updated state.
-/

-- =========================================================================
-- DEFINITIONS
-- =========================================================================

-- ===== Constants from Simple_File_System/OS_File_System.h =====

abbrev SECTOR_FREE : Nat := 255
abbrev FILE_EMPTY : Nat := 255
abbrev MAX_FILE_NUMBER : Nat := 254
abbrev METADATA_SECTOR : Nat := 255
abbrev NUM_SECTORS : Nat := 256
abbrev DIRECTORY_SIZE : Nat := 256
abbrev FAT_SIZE : Nat := 256
abbrev SECTOR_SIZE : Nat := 512
abbrev DISK_START_ADDRESS : Nat := 0x00020000
abbrev FS_SUCCESS : Nat := 0
abbrev FS_ERROR : Nat := 255
abbrev FS_DISK_FULL : Nat := 255
abbrev FS_NO_DATA : Nat := 255

/-- Pointwise update of a byte array modelled as a function. -/
def upd (f : Nat → Nat) (i v : Nat) : Nat → Nat :=
  fun j => if j = i then v else f j

/-- RAM state of the file system: RAM_Directory and RAM_FAT
(OS_File_System.c lines 15-16). -/
structure FSState where
  dir : Nat → Nat
  fat : Nat → Nat

/-- OS_FS_Init (OS_File_System.c 25-37): every directory entry FILE_EMPTY,
every FAT entry SECTOR_FREE. -/
def OS_FS_Init : FSState :=
  { dir := fun _ => FILE_EMPTY, fat := fun _ => SECTOR_FREE }

/-- The while loop of last_sector (OS_File_System.c 311-326).  The loop
returns current when the FAT entry is SECTOR_FREE, and returns SECTOR_FREE
once the iteration count exceeds NUM_SECTORS (corrupted-FAT guard). -/
def last_sector_loop (fat : Nat → Nat) (current count : Nat) : Nat :=
  let next := fat current
  if next = SECTOR_FREE then current
  else if h : count + 1 > NUM_SECTORS then SECTOR_FREE
  else last_sector_loop fat next (count + 1)
termination_by NUM_SECTORS + 1 - count
decreasing_by omega

/-- last_sector (OS_File_System.c 298-327). -/
def last_sector (fat : Nat → Nat) (start : Nat) : Nat :=
  if start = FILE_EMPTY then SECTOR_FREE
  else last_sector_loop fat start 0

/-- One step of the directory scan in find_free_sector
(OS_File_System.c 272-282): acc is lastUsedSector. -/
def ffs_scan (s : FSState) (acc : Int) (i : Nat) : Int :=
  if s.dir i ≠ FILE_EMPTY then
    let lastSectorInFile := last_sector s.fat (s.dir i)
    if lastSectorInFile ≠ SECTOR_FREE then
      if (lastSectorInFile : Int) > acc then (lastSectorInFile : Int) else acc
    else acc
  else acc

/-- find_free_sector (OS_File_System.c 265-293): scan every directory
entry for the highest last sector, add one, report FS_DISK_FULL when the
result reaches METADATA_SECTOR. -/
def find_free_sector (s : FSState) : Nat :=
  let lastUsedSector : Int := (List.range DIRECTORY_SIZE).foldl (ffs_scan s) (-1)
  let firstFreeSector : Int := lastUsedSector + 1
  if firstFreeSector ≥ (METADATA_SECTOR : Int) then FS_DISK_FULL
  else firstFreeSector.toNat

/-- The walk of append_fat (OS_File_System.c 346-358).  The C loop
`while(1)` has no cycle guard, so the embedding carries fuel; none models
the loop running forever.  On finding the chain end it links sector n. -/
def append_fat_go (fat : Nat → Nat) (n : Nat) : Nat → Nat → Option (Nat → Nat)
  | _, 0 => none
  | current, fuel + 1 =>
    let next := fat current
    if next = SECTOR_FREE then some (upd fat current n)
    else append_fat_go fat n next fuel

/-- append_fat (OS_File_System.c 332-359): mark sector n as end of chain,
then either store it in the directory (empty file) or link it after the
last sector of the chain.  Fuel NUM_SECTORS + 1 exceeds the length of any
NULL-terminated chain over a 256-entry FAT. -/
def append_fat (s : FSState) (num n : Nat) : Option FSState :=
  let fat1 := upd s.fat n SECTOR_FREE
  if s.dir num = FILE_EMPTY then some { dir := upd s.dir num n, fat := fat1 }
  else
    match append_fat_go fat1 n (s.dir num) (NUM_SECTORS + 1) with
    | some fat2 => some { dir := s.dir, fat := fat2 }
    | none => none

/-- The while loop of OS_File_Size (OS_File_System.c 87-95): count the
chain, returning 0 once count exceeds NUM_SECTORS (corrupted FAT). -/
def file_size_loop (fat : Nat → Nat) (sector count : Nat) : Nat :=
  if sector = SECTOR_FREE then count
  else
    let count1 := count + 1
    let sector1 := fat sector
    if _h : count1 > NUM_SECTORS then 0
    else file_size_loop fat sector1 count1
termination_by NUM_SECTORS + 1 - count
decreasing_by omega

/-- OS_File_Size (OS_File_System.c 70-98). -/
def OS_File_Size (s : FSState) (num : Nat) : Nat :=
  if num > MAX_FILE_NUMBER then 0
  else
    let sector := s.dir num
    if sector = FILE_EMPTY then 0
    else file_size_loop s.fat sector 0

/-- OS_File_New (OS_File_System.c 46-65): fail when the disk is full,
otherwise return the first directory index holding FILE_EMPTY (the code
rewrites that entry with FILE_EMPTY, its current value). -/
def OS_File_New (s : FSState) : Nat × FSState :=
  if find_free_sector s = FS_DISK_FULL then (FS_ERROR, s)
  else
    match (List.range (MAX_FILE_NUMBER + 1)).find? (fun i => s.dir i == FILE_EMPTY) with
    | some i => (i, { s with dir := upd s.dir i FILE_EMPTY })
    | none => (FS_ERROR, s)

-- ===== Flash model and sector write (OS_File_System.c 368-413) =====

/-- Flash memory as a byte map. -/
abbrev Flash := Nat → Nat

/-- Modelled from the spec: Flash_Write (FlashProgram.c is not in the
repository sources; spec section 4.6).  Programs a 32-bit word at addr;
write-once semantics: the write succeeds when the four target bytes are in
the erased state 0xFF, storing the word little-endian; otherwise it
reports an error and leaves flash unchanged.  Returns NOERROR = 0 on
success. -/
def Flash_Write (fl : Flash) (addr data : Nat) : Nat × Flash :=
  if fl addr = 255 ∧ fl (addr + 1) = 255 ∧ fl (addr + 2) = 255 ∧ fl (addr + 3) = 255 then
    (0, fun a =>
      if a = addr then data &&& 255
      else if a = addr + 1 then (data >>> 8) &&& 255
      else if a = addr + 2 then (data >>> 16) &&& 255
      else if a = addr + 3 then (data >>> 24) &&& 255
      else fl a)
  else (1, fl)

/-- The word loop of eDisk_WriteSector (OS_File_System.c 378-390): pack
four bytes little-endian and Flash_Write them; stop with status 1 on the
first failure.  k counts remaining words, i is the byte offset. -/
def eDisk_write_go (buf : Nat → Nat) (base : Nat) (fl : Flash) (i : Nat) : Nat → Nat × Flash
  | 0 => (0, fl)
  | k + 1 =>
    let dataWord := buf i ||| buf (i + 1) <<< 8 ||| buf (i + 2) <<< 16 ||| buf (i + 3) <<< 24
    let r := Flash_Write fl (base + i) dataWord
    if r.1 ≠ 0 then (1, r.2)
    else eDisk_write_go buf base r.2 (i + 4) k

/-- eDisk_WriteSector (OS_File_System.c 368-393). -/
def eDisk_WriteSector (fl : Flash) (buf : Nat → Nat) (n : Nat) : Nat × Flash :=
  eDisk_write_go buf (DISK_START_ADDRESS + n * SECTOR_SIZE) fl 0 (SECTOR_SIZE / 4)

/-- The 512-byte buffer packed by OS_File_Flush (OS_File_System.c
184-191): directory in bytes below DIRECTORY_SIZE, FAT above. -/
def flushBuffer (s : FSState) : Nat → Nat :=
  fun i => if i < DIRECTORY_SIZE then s.dir i else s.fat (i - DIRECTORY_SIZE)

/-- OS_File_Flush (OS_File_System.c 178-199). -/
def OS_File_Flush (s : FSState) (fl : Flash) : Nat × Flash :=
  let r := eDisk_WriteSector fl (flushBuffer s) METADATA_SECTOR
  if r.1 ≠ FS_SUCCESS then (FS_ERROR, r.2) else (FS_SUCCESS, r.2)

/-- OS_File_Mount (OS_File_System.c 204-230): read the 512 metadata bytes
and unpack them into the RAM directory and FAT.  Always FS_SUCCESS. -/
def OS_File_Mount (s : FSState) (fl : Flash) : FSState :=
  let base := DISK_START_ADDRESS + METADATA_SECTOR * SECTOR_SIZE
  { dir := fun i => if i < DIRECTORY_SIZE then fl (base + i) else s.dir i,
    fat := fun i => if i < FAT_SIZE then fl (base + (i + DIRECTORY_SIZE)) else s.fat i }

/-- The location walk of OS_File_Read (OS_File_System.c 150-157): hop
location times through the FAT, none when a hop lands on SECTOR_FREE. -/
def read_walk (fat : Nat → Nat) (sector : Nat) : Nat → Option Nat
  | 0 => some sector
  | loc + 1 =>
    let sector1 := fat sector
    if sector1 = SECTOR_FREE then none else read_walk fat sector1 loc

/-- OS_File_Read (OS_File_System.c 131-169).  The second component is the
512 bytes copied out on success; none when the caller buffer is left
untouched. -/
def OS_File_Read (s : FSState) (fl : Flash) (num location : Nat) :
    Nat × Option (Nat → Nat) :=
  if num > MAX_FILE_NUMBER then (FS_NO_DATA, none)
  else
    let sector := s.dir num
    if sector = FILE_EMPTY then (FS_NO_DATA, none)
    else
      match read_walk s.fat sector location with
      | none => (FS_NO_DATA, none)
      | some sec =>
        (FS_SUCCESS, some (fun i =>
          if i < SECTOR_SIZE then fl (DISK_START_ADDRESS + sec * SECTOR_SIZE + i) else 0))

/-- OS_File_Append (OS_File_System.c 103-126), carrying the flash state
through eDisk_WriteSector.  none models append_fat failing to terminate
(unreachable from reachable states, proved below). -/
def OS_File_Append (s : FSState) (fl : Flash) (num : Nat) (buf : Nat → Nat) :
    Option (Nat × FSState × Flash) :=
  if num > MAX_FILE_NUMBER then some (FS_ERROR, s, fl)
  else
    let freeSector := find_free_sector s
    if freeSector = FS_DISK_FULL then some (FS_DISK_FULL, s, fl)
    else
      let w := eDisk_WriteSector fl buf freeSector
      if w.1 ≠ FS_SUCCESS then some (FS_ERROR, s, w.2)
      else
        match append_fat s num freeSector with
        | some s2 => some (FS_SUCCESS, s2, w.2)
        | none => none

/-- OS_File_Append projected onto the RAM state.  eDisk_WriteSector
neither reads nor writes RAM_Directory or RAM_FAT, so its outcome is
abstracted as writeOk; the lemma append_eq_ram below ties this definition
to OS_File_Append. -/
def OS_File_Append_ram (s : FSState) (num : Nat) (writeOk : Bool) :
    Option (Nat × FSState) :=
  if num > MAX_FILE_NUMBER then some (FS_ERROR, s)
  else
    let freeSector := find_free_sector s
    if freeSector = FS_DISK_FULL then some (FS_DISK_FULL, s)
    else if writeOk = false then some (FS_ERROR, s)
    else
      match append_fat s num freeSector with
      | some s2 => some (FS_SUCCESS, s2)
      | none => none

-- ===== Observers and event semantics for the file-system claims =====

/-- The chain of a file as the spec defines it: the sectors reachable from
a head by repeated FAT lookups, cut off at SECTOR_FREE; fuel bounds the
walk. -/
def chainWalk (fat : Nat → Nat) : Nat → Nat → List Nat
  | _, 0 => []
  | h, fuel + 1 => if h = SECTOR_FREE then [] else h :: chainWalk fat (fat h) fuel

/-- The chain of file num in state s. -/
def fileChain (s : FSState) (num : Nat) : List Nat :=
  chainWalk s.fat (s.dir num) (NUM_SECTORS + 1)

/-- isChain fat h l: l lists exactly the sectors of the NULL-terminated
chain headed by h. -/
def isChain (fat : Nat → Nat) : Nat → List Nat → Prop
  | h, [] => h = SECTOR_FREE
  | h, a :: l => h = a ∧ isChain fat (fat a) l

/-- The last sector of every nonempty file chain. -/
def lastSectors (s : FSState) : List Nat :=
  (List.range (MAX_FILE_NUMBER + 1)).filterMap (fun i => (fileChain s i).getLast?)

/-- The allocation policy as the spec words it: one more than the maximum
last sector over all files, or 0 when no file has any sectors. -/
def specFreeSector (s : FSState) : Nat :=
  if lastSectors s = [] then 0 else (lastSectors s).foldr max 0 + 1

/-- Public file-system events: OS_File_New, and OS_File_Append with the
eDisk_WriteSector outcome. -/
inductive FSEvent where
  | newFile : FSEvent
  | append (num : Nat) (writeOk : Bool) : FSEvent

/-- One event applied to state plus the per-file count of successful
appends (appends that returned FS_SUCCESS). -/
def fsStep (st : FSState × (Nat → Nat)) (e : FSEvent) : Option (FSState × (Nat → Nat)) :=
  match e with
  | FSEvent.newFile => some ((OS_File_New st.1).2, st.2)
  | FSEvent.append num writeOk =>
    match OS_File_Append_ram st.1 num writeOk with
    | some (r, s2) => some (s2, if r = FS_SUCCESS then upd st.2 num (st.2 num + 1) else st.2)
    | none => none

/-- Run a list of events from a given state. -/
def fsRunFrom (st : FSState × (Nat → Nat)) : List FSEvent → Option (FSState × (Nat → Nat))
  | [] => some st
  | e :: evts =>
    match fsStep st e with
    | some st2 => fsRunFrom st2 evts
    | none => none

/-- Run a list of events from the state produced by OS_FS_Init. -/
def fsRun (evts : List FSEvent) : Option (FSState × (Nat → Nat)) :=
  fsRunFrom (OS_FS_Init, fun _ => 0) evts

/-- Inductive invariant of the file system, with ghost data: ch num is the
chain of file num, B the allocation high-water mark (the number of sectors
allocated so far). -/
structure FSInv (s : FSState) (cnt : Nat → Nat) (ch : Nat → List Nat) (B : Nat) : Prop where
  bLe : B ≤ METADATA_SECTOR
  dirHigh : ∀ i, MAX_FILE_NUMBER < i → s.dir i = FILE_EMPTY
  chHigh : ∀ i, MAX_FILE_NUMBER < i → ch i = []
  isCh : ∀ i, i ≤ MAX_FILE_NUMBER → isChain s.fat (s.dir i) (ch i)
  incr : ∀ i, List.Chain' (· < ·) (ch i)
  ltB : ∀ i, ∀ x ∈ ch i, x < B
  fatHigh : ∀ j, B ≤ j → s.fat j = SECTOR_FREE
  disj : ∀ i1 i2, i1 ≠ i2 → ∀ x ∈ ch i1, x ∉ ch i2
  top : 0 < B → ∃ i, i ≤ MAX_FILE_NUMBER ∧ (ch i).getLast? = some (B - 1)
  cnts : ∀ i, cnt i = (ch i).length

/-- The OS_File_Size walk with explicit step fuel: none when the loop has
not returned within fuel iterations. -/
def file_size_steps (fat : Nat → Nat) : Nat → Nat → Nat → Option Nat
  | 0, _, _ => none
  | fuel + 1, sector, count =>
    if sector = SECTOR_FREE then some count
    else
      let count1 := count + 1
      let sector1 := fat sector
      if count1 > NUM_SECTORS then some 0
      else file_size_steps fat fuel sector1 count1

/-- Concrete state for claim C6: directory entry 0 points at sector 0 and
the FAT maps every sector to 0, a one-cycle. -/
def C6state : FSState :=
  { dir := upd (fun _ => FILE_EMPTY) 0 0, fat := fun _ => 0 }

-- ===== os_v1.c blocking semaphore and mailbox =====

/-- Semaphore of os_v1.c (lines 51-55) together with the per-thread
blockPt markers (tcb field, os_v1.c 39).  The intrusive NULL-terminated
list through the dedicated tcb.blocked pointers is abstracted as the list
of thread ids in list order.  A single semaphore is modelled; blockPt
stores 1 for its address. -/
structure semaType where
  Value : Int
  BlockedThreads : List Nat
  blockPt : Nat → Nat

/-- OS_InitSemaphore (os_v1.c 189-195); blockPt 0 as set by
OS_AddThreads. -/
def OS_InitSemaphore (value : Int) : semaType :=
  { Value := value, BlockedThreads := [], blockPt := fun _ => 0 }

/-- OS_Wait (os_v1.c 201-229) executed by thread tid: decrement, and when
the result is negative mark tid blocked and append it at the tail of the
blocked list (the C walks the blocked links to the end, lines 211-222). -/
def OS_Wait_v1 (s : semaType) (tid : Nat) : semaType :=
  let value1 := s.Value - 1
  if value1 < 0 then
    { Value := value1, BlockedThreads := s.BlockedThreads ++ [tid],
      blockPt := upd s.blockPt tid 1 }
  else { s with Value := value1 }

/-- OS_Signal (os_v1.c 234-251): increment, and when the result is at most
0 remove the head of the blocked list (if any) and clear its blockPt. -/
def OS_Signal_v1 (s : semaType) : semaType :=
  let value1 := s.Value + 1
  if value1 ≤ 0 then
    match s.BlockedThreads with
    | p :: rest =>
      { Value := value1, BlockedThreads := rest, blockPt := upd s.blockPt p 0 }
    | [] => { s with Value := value1 }
  else { s with Value := value1 }

/-- Wait and signal events on one semaphore; wait carries the calling
thread id. -/
inductive SemEvent where
  | wait (tid : Nat) : SemEvent
  | signal : SemEvent

/-- Apply a sequence of wait and signal calls. -/
def semRun (s : semaType) : List SemEvent → semaType
  | [] => s
  | SemEvent.wait tid :: evts => semRun (OS_Wait_v1 s tid) evts
  | SemEvent.signal :: evts => semRun (OS_Signal_v1 s) evts

/-- Mailbox state of os_v1.c (lines 57-59): Mail, SendSema, Lost. -/
structure MailState where
  Mail : Nat
  SendSema : semaType
  Lost : Nat

/-- Mailbox state after OS_Init (os_v1.c 74-76); Mail is the zeroed
global. -/
def OS_Init_mail : MailState :=
  { Mail := 0, SendSema := OS_InitSemaphore 0, Lost := 0 }

/-- SendMail (os_v1.c 281-288): store into the slot; if the semaphore
value is positive count the message as lost, otherwise signal. -/
def SendMail (s : MailState) (data : Nat) : MailState :=
  let s1 := { s with Mail := data }
  if s1.SendSema.Value > 0 then { s1 with Lost := s1.Lost + 1 }
  else { s1 with SendSema := OS_Signal_v1 s1.SendSema }

/-- RecvMail (os_v1.c 293-296) executed by thread tid: wait, then return
the slot contents. -/
def RecvMail (s : MailState) (tid : Nat) : Nat × MailState :=
  let s1 := { s with SendSema := OS_Wait_v1 s.SendSema tid }
  (s1.Mail, s1)

-- ===== Color_Show/os.c kernel =====

/-- struct tcb of Color_Show/os.c (lines 21-28); next is the pointer used
both for the scheduler ring and, by OS_Wait there, as the blocked-list
link.  none models a NULL pointer. -/
structure cstcb where
  next : Option Nat
  sleepCount : Nat
  blockSemaPt : Nat

/-- Replace the TCB at index i. -/
def updTcb (tcbs : Nat → cstcb) (i : Nat) (t : cstcb) : Nat → cstcb :=
  fun j => if j = i then t else tcbs j

/-- Combined kernel state of Color_Show/os.c: the TCB array, NumThreads,
RunPt, and the fields of one Sema4Type (value, blockedList). -/
structure CSState where
  tcbs : Nat → cstcb
  NumThreads : Nat
  RunPt : Nat
  value : Int
  blockedList : Option Nat

/-- The sleep-decrement loop at the top of Scheduler (os.c 251-255). -/
def tickDec (tcbs : Nat → cstcb) (n : Nat) : Nat → cstcb :=
  fun i =>
    if i < n ∧ 0 < (tcbs i).sleepCount
    then { tcbs i with sleepCount := (tcbs i).sleepCount - 1 }
    else tcbs i

/-- The selection loop of Scheduler (os.c 261-273): from start, take the
first TCB with sleepCount 0 and blockSemaPt 0; some none models wrapping
back to start (keep RunPt); none models fuel exhaustion or a NULL next
pointer, neither of which occurs in the launched ring. -/
def schedFind (tcbs : Nat → cstcb) (start : Nat) : Nat → Nat → Option (Option Nat)
  | _, 0 => none
  | pt, fuel + 1 =>
    if (tcbs pt).sleepCount = 0 ∧ (tcbs pt).blockSemaPt = 0 then some (some pt)
    else
      match (tcbs pt).next with
      | none => none
      | some pt2 => if pt2 = start then some none else schedFind tcbs start pt2 fuel

/-- Scheduler (os.c 245-274): decrement positive sleep counters of the
NumThreads TCBs, then select the next runnable thread starting at the
successor of RunPt; if the walk wraps, RunPt is kept.  MSTime bookkeeping
is omitted. -/
def Scheduler (s : CSState) (fuel : Nat) : Option CSState :=
  let tcbs2 := tickDec s.tcbs s.NumThreads
  match (tcbs2 s.RunPt).next with
  | none => none
  | some start =>
    match schedFind tcbs2 start start fuel with
    | some (some p) => some { s with tcbs := tcbs2, RunPt := p }
    | some none => some { s with tcbs := tcbs2 }
    | none => none

/-- Readiness as the spec words it: sleep counter 0 and blocked-on marker
absent. -/
def csReady (tcbs : Nat → cstcb) (i : Nat) : Bool :=
  (tcbs i).sleepCount == 0 && (tcbs i).blockSemaPt == 0

/-- The ring order starting after runPt: indices runPt+1, ..., runPt+n
modulo n. -/
def ringFrom (runPt n : Nat) : List Nat :=
  (List.range n).map (fun k => (runPt + 1 + k) % n)

/-- The tick as the spec words it (spec section 4.1): decrement positive
sleep counters, then set current to the first ready TCB after current in
ring order, keeping current when none is ready. -/
def schedulerSpec (s : CSState) : CSState :=
  let tcbs2 := tickDec s.tcbs s.NumThreads
  match (ringFrom s.RunPt s.NumThreads).find? (csReady tcbs2) with
  | some p => { s with tcbs := tcbs2, RunPt := p }
  | none => { s with tcbs := tcbs2 }

/-- The tail search of OS_Wait in Color_Show/os.c (lines 189-191):
`while(pt->next != 0) pt = pt->next`.  none models the loop still running
after fuel steps. -/
def findTail (tcbs : Nat → cstcb) : Nat → Nat → Option Nat
  | _, 0 => none
  | pt, fuel + 1 =>
    match (tcbs pt).next with
    | none => some pt
    | some pt2 => findTail tcbs pt2 fuel

/-- OS_Wait of Color_Show/os.c (lines 176-200), executed by RunPt:
decrement; when negative, set blockSemaPt (the semaphore address, modelled
as 1) and append RunPt to the blocked list, which this implementation
threads through the ring pointer next. -/
def cs_OS_Wait (s : CSState) (fuel : Nat) : Option CSState :=
  let value1 := s.value - 1
  if value1 < 0 then
    let tcbs1 := updTcb s.tcbs s.RunPt { s.tcbs s.RunPt with blockSemaPt := 1 }
    match s.blockedList with
    | none => some { s with value := value1, tcbs := tcbs1, blockedList := some s.RunPt }
    | some p =>
      match findTail tcbs1 p fuel with
      | none => none
      | some tl =>
        some { s with value := value1
                      tcbs := updTcb tcbs1 tl { tcbs1 tl with next := some s.RunPt } }
  else some { s with value := value1 }

/-- OS_Signal of Color_Show/os.c (lines 204-219): increment; when the
result is at most 0 and the blocked list is nonempty, set blockedList to
the next pointer of its head and clear the head blockSemaPt. -/
def cs_OS_Signal (s : CSState) : CSState :=
  let value1 := s.value + 1
  if value1 ≤ 0 then
    match s.blockedList with
    | some p =>
      { s with value := value1
               blockedList := (s.tcbs p).next
               tcbs := updTcb s.tcbs p { s.tcbs p with blockSemaPt := 0 } }
    | none => { s with value := value1 }
  else { s with value := value1 }

/-- The launched three-thread ring of Color_Show (OS_AddThread, os.c
128-135): tcbs[i].next points at tcbs[(i+1) % 3] and is never NULL. -/
def C2ring : Nat → cstcb :=
  fun i => { next := some ((i + 1) % 3), sleepCount := 0, blockSemaPt := 0 }

/-- Claim C2 scenario start: semaphore value 0, empty blocked list, thread
0 running. -/
def C2st0 : CSState :=
  { tcbs := C2ring, NumThreads := 3, RunPt := 0, value := 0, blockedList := none }

/-- State after thread 0 calls OS_Wait on C2st0. -/
def C2st1 : CSState :=
  { tcbs := updTcb C2ring 0 { C2ring 0 with blockSemaPt := 1 },
    NumThreads := 3, RunPt := 0, value := -1, blockedList := some 0 }

/-- C2st1 with thread 1 now running (about to call OS_Wait as the second
waiter). -/
def C2st2 : CSState :=
  { C2st1 with RunPt := 1 }

/-- Concrete state for the claim C3 witness: thread 0 sleeping, thread 1
blocked, thread 2 ready. -/
def C3tcbs : Nat → cstcb :=
  fun i =>
    if i = 0 then { next := some 1, sleepCount := 5, blockSemaPt := 0 }
    else if i = 1 then { next := some 2, sleepCount := 0, blockSemaPt := 1 }
    else if i = 2 then { next := some 0, sleepCount := 0, blockSemaPt := 0 }
    else { next := none, sleepCount := 0, blockSemaPt := 0 }

/-- Claim C3 witness state. -/
def C3state : CSState :=
  { tcbs := C3tcbs, NumThreads := 3, RunPt := 0, value := 0, blockedList := none }

-- ===== OS_Fifo of os.h (implementation modelled from the spec) =====

abbrev FIFOSIZE : Nat := 10

/-- FIFO state as exported by Color_Show/os.h (lines 174-178): Fifo
buffer, PutI, GetI, CurrentSize size semaphore, LostData counter. -/
structure FifoState where
  Fifo : Nat → Nat
  PutI : Nat
  GetI : Nat
  CurrentSize : Int
  LostData : Nat

/-- Modelled from the spec: OS_Fifo_Init.  Its implementation is not in
the repository sources (os.h line 116 declares it; Color_Show/main.c calls
it); spec section 4.4: clear indices, size semaphore 0. -/
def OS_Fifo_Init : FifoState :=
  { Fifo := fun _ => 0, PutI := 0, GetI := 0, CurrentSize := 0, LostData := 0 }

/-- Modelled from the spec: OS_Fifo_Put.  Its implementation is not in the
repository sources (os.h lines 119-124 declare it as non-blocking with a
-1 FIFO-full result; Color_Show/main.c calls it); spec section 4.4: if
size equals FIFOSIZE, increment the lost counter and return FIFO-full
without touching the buffer; otherwise store at the tail, advance the tail
modulo FIFOSIZE, and signal the size semaphore. -/
def OS_Fifo_Put (s : FifoState) (data : Nat) : Int × FifoState :=
  if s.CurrentSize = (FIFOSIZE : Int) then (-1, { s with LostData := s.LostData + 1 })
  else
    (0, { s with Fifo := upd s.Fifo s.PutI data
                 PutI := (s.PutI + 1) % FIFOSIZE
                 CurrentSize := s.CurrentSize + 1 })

/-- Apply OS_Fifo_Put to each value in turn. -/
def fifoPutSeq (s : FifoState) : List Nat → FifoState
  | [] => s
  | x :: xs => fifoPutSeq (OS_Fifo_Put s x).2 xs

-- =========================================================================
-- THEOREMS
-- =========================================================================

-- ===== Basic lemmas about upd =====

@[simp]
theorem upd_self (f : Nat → Nat) (i v : Nat) : upd f i v i = v := by
  simp [upd]

theorem upd_ne (f : Nat → Nat) (i v j : Nat) (h : j ≠ i) : upd f i v j = f j := by
  simp [upd, h]

theorem upd_eq_self (f : Nat → Nat) (i : Nat) : upd f i (f i) = f := by
  funext j
  unfold upd
  by_cases h : j = i <;> simp [h]

-- ===== C10: OS_File_New does not mutate state =====

/-- Claim C10: OS_File_New never modifies RAM_Directory or RAM_FAT, so two
consecutive OS_File_New calls with no intervening successful append return
the same file number. -/
theorem C10_file_new_idempotent (s : FSState) :
    (OS_File_New s).2 = s ∧
    (OS_File_New ((OS_File_New s).2)).1 = (OS_File_New s).1 := by
  have hstate : (OS_File_New s).2 = s := by
    unfold OS_File_New
    by_cases hfull : find_free_sector s = FS_DISK_FULL
    · simp [hfull]
    · simp only [hfull, if_false]
      cases hfind : (List.range (MAX_FILE_NUMBER + 1)).find? (fun i => s.dir i == FILE_EMPTY) with
      | none => simp
      | some i =>
        have hp : s.dir i = FILE_EMPTY := by
          have := List.find?_some hfind
          simpa using this
        simp only
        cases s with
        | mk dir fat =>
          simp only [FSState.mk.injEq]
          refine ⟨?_, trivial⟩
          rw [← hp]
          exact upd_eq_self dir i
  exact ⟨hstate, by rw [hstate]⟩

-- ===== C9: invalid file number =====

/-- Claim C9 counterexample: OS_File_Size with the invalid file number 255
returns 0, not the error sentinel 0xFF. -/
theorem C9_counterexample :
    OS_File_Size OS_FS_Init 255 = 0 ∧ OS_File_Size OS_FS_Init 255 ≠ FS_ERROR := by
  constructor <;> decide

/-- Claim C9 (amended): with a file number above MAX_FILE_NUMBER,
OS_File_Append returns FS_ERROR leaving RAM and flash unchanged,
OS_File_Read returns FS_NO_DATA writing nothing, and OS_File_Size returns
0 (not 0xFF) leaving state unchanged. -/
theorem C9_amended (s : FSState) (fl : Flash) (num location : Nat) (buf : Nat → Nat)
    (h : MAX_FILE_NUMBER < num) :
    OS_File_Append s fl num buf = some (FS_ERROR, s, fl) ∧
    OS_File_Read s fl num location = (FS_NO_DATA, none) ∧
    OS_File_Size s num = 0 := by
  refine ⟨?_, ?_, ?_⟩
  · unfold OS_File_Append
    rw [if_pos h]
  · unfold OS_File_Read
    rw [if_pos h]
  · unfold OS_File_Size
    rw [if_pos h]

/-- Witness for C9_amended at file number 255 on the freshly initialised
state and fully erased flash. -/
theorem C9_amended_witness :
    OS_File_Append OS_FS_Init (fun _ => 255) 255 (fun _ => 0) =
      some (FS_ERROR, OS_FS_Init, (fun _ => 255 : Flash)) ∧
    OS_File_Read OS_FS_Init (fun _ => 255) 255 0 = (FS_NO_DATA, none) ∧
    OS_File_Size OS_FS_Init 255 = 0 :=
  C9_amended OS_FS_Init (fun _ => 255) 255 0 (fun _ => 0) (by decide)

-- ===== C6: size walk termination bound and cyclic chains =====

theorem file_size_steps_eq (fat : Nat → Nat) :
    ∀ fuel sector count, count ≤ NUM_SECTORS → NUM_SECTORS + 1 - count ≤ fuel →
      file_size_steps fat fuel sector count = some (file_size_loop fat sector count) := by
  intro fuel
  induction fuel with
  | zero => intro sector count hc hf; omega
  | succ fuel ih =>
    intro sector count hc hf
    unfold file_size_steps file_size_loop
    by_cases hs : sector = SECTOR_FREE
    · simp [hs]
    · simp only [hs, if_false]
      by_cases hg : count + 1 > NUM_SECTORS
      · simp [hg]
      · simp only [hg, if_false, dif_neg hg]
        exact ih (fat sector) (count + 1) (by omega) (by omega)

theorem file_size_loop_cyclic (fat : Nat → Nat) :
    ∀ m count sector, NUM_SECTORS + 1 - count ≤ m →
      (∀ k, fat^[k] sector ≠ SECTOR_FREE) →
      file_size_loop fat sector count = 0 := by
  intro m
  induction m with
  | zero =>
    intro count sector hm hcyc
    unfold file_size_loop
    have hs : sector ≠ SECTOR_FREE := by simpa using hcyc 0
    simp only [hs, if_false]
    have hg : count + 1 > NUM_SECTORS := by omega
    simp [hg]
  | succ m ih =>
    intro count sector hm hcyc
    unfold file_size_loop
    have hs : sector ≠ SECTOR_FREE := by simpa using hcyc 0
    simp only [hs, if_false]
    by_cases hg : count + 1 > NUM_SECTORS
    · simp [hg]
    · simp only [dif_neg hg]
      refine ih (count + 1) (fat sector) (by omega) ?_
      intro k
      have := hcyc (k + 1)
      simpa [Function.iterate_succ_apply] using this

set_option maxRecDepth 4000 in
/-- Claim C6 counterexample: on the cyclic FAT of C6state the size walk
has not terminated after NUM_SECTORS iterations; it needs NUM_SECTORS + 1,
where it returns 0. -/
theorem C6_counterexample :
    file_size_steps C6state.fat NUM_SECTORS (C6state.dir 0) 0 = none ∧
    file_size_steps C6state.fat (NUM_SECTORS + 1) (C6state.dir 0) 0 = some 0 := by
  constructor <;> decide

/-- Claim C6 (amended): for every directory and FAT contents the chain
walk of OS_File_Size terminates within NUM_SECTORS + 1 iterations (its
result is stable for any larger fuel), and when the chain starting at
directory[num] is cyclic (never reaches SECTOR_FREE) the function returns
size 0. -/
theorem C6_amended (s : FSState) (num : Nat) :
    (∀ fuel, NUM_SECTORS + 1 ≤ fuel →
      file_size_steps s.fat fuel (s.dir num) 0 =
        some (file_size_loop s.fat (s.dir num) 0)) ∧
    ((∀ k, s.fat^[k] (s.dir num) ≠ SECTOR_FREE) → OS_File_Size s num = 0) := by
  constructor
  · intro fuel hf
    exact file_size_steps_eq s.fat fuel (s.dir num) 0 (by omega) (by omega)
  · intro hcyc
    unfold OS_File_Size
    by_cases hn : num > MAX_FILE_NUMBER
    · simp [hn]
    · simp only [hn, if_false]
      have hs : s.dir num ≠ FILE_EMPTY := by simpa using hcyc 0
      simp only [hs, if_false]
      exact file_size_loop_cyclic s.fat (NUM_SECTORS + 1) 0 (s.dir num) (by omega) hcyc

/-- Witness for C6_amended on the concrete cyclic state C6state. -/
theorem C6_amended_witness :
    file_size_steps C6state.fat 300 (C6state.dir 0) 0 =
      some (file_size_loop C6state.fat (C6state.dir 0) 0) ∧
    OS_File_Size C6state 0 = 0 := by
  have hcyc : ∀ k, C6state.fat^[k] (C6state.dir 0) ≠ SECTOR_FREE := by
    have hz : ∀ k, C6state.fat^[k] (0 : Nat) = 0 := by
      intro k
      induction k with
      | zero => rfl
      | succ k ih => rw [Function.iterate_succ_apply', ih]; rfl
    intro k
    have hd : C6state.dir 0 = 0 := by decide
    rw [hd, hz k]
    decide
  exact ⟨(C6_amended C6state 0).1 300 (by decide), (C6_amended C6state 0).2 hcyc⟩

-- ===== C7: os_v1 semaphore invariant =====

theorem semRun_length_inv (evts : List SemEvent) :
    ∀ s : semaType, s.BlockedThreads.length = (-s.Value).toNat →
      (semRun s evts).BlockedThreads.length = (-(semRun s evts).Value).toNat := by
  induction evts with
  | nil => intro s h; exact h
  | cons e evts ih =>
    intro s h
    cases e with
    | wait tid =>
      show (semRun (OS_Wait_v1 s tid) evts).BlockedThreads.length = _
      refine ih (OS_Wait_v1 s tid) ?_
      unfold OS_Wait_v1
      by_cases hlt : s.Value - 1 < 0
      · simp only [hlt, if_true, List.length_append, List.length_cons, List.length_nil]
        omega
      · rw [if_neg hlt]
        show s.BlockedThreads.length = (-(s.Value - 1)).toNat
        omega
    | signal =>
      show (semRun (OS_Signal_v1 s) evts).BlockedThreads.length = _
      refine ih (OS_Signal_v1 s) ?_
      unfold OS_Signal_v1
      by_cases hle : s.Value + 1 ≤ 0
      · simp only [hle, if_true]
        cases hb : s.BlockedThreads with
        | nil =>
          rw [hb] at h
          simp at h
          omega
        | cons p rest =>
          rw [hb] at h
          simp only [List.length_cons] at h
          simp only [List.length_cons]
          omega
      · rw [if_neg hle]
        show s.BlockedThreads.length = (-(s.Value + 1)).toNat
        omega

/-- Claim C7: for a semaphore initialised with a non-negative value, after
any sequence of wait and signal calls, a negative value means exactly that
many threads are on the blocked list and a non-negative value means the
blocked list is empty. -/
theorem C7_semaphore_invariant (v : Int) (hv : 0 ≤ v) (evts : List SemEvent) :
    ((semRun (OS_InitSemaphore v) evts).Value < 0 →
      (semRun (OS_InitSemaphore v) evts).BlockedThreads.length =
        (-(semRun (OS_InitSemaphore v) evts).Value).toNat) ∧
    (0 ≤ (semRun (OS_InitSemaphore v) evts).Value →
      (semRun (OS_InitSemaphore v) evts).BlockedThreads = []) := by
  have h0 : (OS_InitSemaphore v).BlockedThreads.length = (-(OS_InitSemaphore v).Value).toNat := by
    unfold OS_InitSemaphore
    simp only [List.length_nil]
    omega
  have h := semRun_length_inv evts (OS_InitSemaphore v) h0
  constructor
  · intro _; exact h
  · intro hge
    have : (semRun (OS_InitSemaphore v) evts).BlockedThreads.length = 0 := by omega
    exact List.eq_nil_of_length_eq_zero this

/-- Witness for C7_semaphore_invariant: value 0, one wait then one
signal. -/
theorem C7_witness :
    ((semRun (OS_InitSemaphore 0) [SemEvent.wait 1, SemEvent.signal]).Value < 0 →
      (semRun (OS_InitSemaphore 0) [SemEvent.wait 1, SemEvent.signal]).BlockedThreads.length =
        (-(semRun (OS_InitSemaphore 0) [SemEvent.wait 1, SemEvent.signal]).Value).toNat) ∧
    (0 ≤ (semRun (OS_InitSemaphore 0) [SemEvent.wait 1, SemEvent.signal]).Value →
      (semRun (OS_InitSemaphore 0) [SemEvent.wait 1, SemEvent.signal]).BlockedThreads = []) :=
  C7_semaphore_invariant 0 (by decide) [SemEvent.wait 1, SemEvent.signal]

-- ===== C8: os_v1 mailbox =====

/-- Claim C8: SendMail stores into the slot and counts the message lost
exactly when the arrival semaphore is positive, signalling otherwise;
RecvMail waits and returns the slot; the 7, 8, 9 scenario yields 9 with
Lost equal to 2 and no blocking. -/
theorem C8_mailbox (s : MailState) (d : Nat) (tid : Nat) :
    ((SendMail s d).Mail = d) ∧
    (0 < s.SendSema.Value →
      (SendMail s d).Lost = s.Lost + 1 ∧ (SendMail s d).SendSema = s.SendSema) ∧
    (¬0 < s.SendSema.Value →
      (SendMail s d).Lost = s.Lost ∧ (SendMail s d).SendSema = OS_Signal_v1 s.SendSema) ∧
    ((RecvMail s tid).1 = s.Mail ∧
      (RecvMail s tid).2.SendSema = OS_Wait_v1 s.SendSema tid) ∧
    ((RecvMail (SendMail (SendMail (SendMail OS_Init_mail 7) 8) 9) tid).1 = 9 ∧
      (SendMail (SendMail (SendMail OS_Init_mail 7) 8) 9).Lost = 2 ∧
      (RecvMail (SendMail (SendMail (SendMail OS_Init_mail 7) 8) 9) tid).2.SendSema.Value = 0 ∧
      (RecvMail (SendMail (SendMail (SendMail OS_Init_mail 7) 8) 9) tid).2.SendSema.blockPt tid = 0) := by
  refine ⟨?_, ?_, ?_, ⟨rfl, rfl⟩, rfl, rfl, ?_, ?_⟩
  · unfold SendMail
    by_cases hgt : s.SendSema.Value > 0 <;> simp [hgt]
  · intro hgt
    unfold SendMail
    simp only
    rw [if_pos hgt]
    exact ⟨rfl, rfl⟩
  · intro hng
    unfold SendMail
    simp only
    rw [if_neg hng]
    exact ⟨rfl, rfl⟩
  · rfl
  · rfl

/-- Witness for C8_mailbox at a concrete mailbox state. -/
theorem C8_witness :
    ((SendMail OS_Init_mail 5).Mail = 5) ∧
    (0 < OS_Init_mail.SendSema.Value →
      (SendMail OS_Init_mail 5).Lost = OS_Init_mail.Lost + 1 ∧
      (SendMail OS_Init_mail 5).SendSema = OS_Init_mail.SendSema) ∧
    (¬0 < OS_Init_mail.SendSema.Value →
      (SendMail OS_Init_mail 5).Lost = OS_Init_mail.Lost ∧
      (SendMail OS_Init_mail 5).SendSema = OS_Signal_v1 OS_Init_mail.SendSema) ∧
    ((RecvMail OS_Init_mail 2).1 = OS_Init_mail.Mail ∧
      (RecvMail OS_Init_mail 2).2.SendSema = OS_Wait_v1 OS_Init_mail.SendSema 2) ∧
    ((RecvMail (SendMail (SendMail (SendMail OS_Init_mail 7) 8) 9) 2).1 = 9 ∧
      (SendMail (SendMail (SendMail OS_Init_mail 7) 8) 9).Lost = 2 ∧
      (RecvMail (SendMail (SendMail (SendMail OS_Init_mail 7) 8) 9) 2).2.SendSema.Value = 0 ∧
      (RecvMail (SendMail (SendMail (SendMail OS_Init_mail 7) 8) 9) 2).2.SendSema.blockPt 2 = 0) :=
  C8_mailbox OS_Init_mail 5 2

-- ===== C2: Color_Show OS_Wait and OS_Signal corrupt the wait list =====

theorem findTail_ring3_none (tcbs : Nat → cstcb)
    (hnext : ∀ p, p < 3 → (tcbs p).next = some ((p + 1) % 3)) :
    ∀ fuel p, p < 3 → findTail tcbs p fuel = none := by
  intro fuel
  induction fuel with
  | zero => intro p _; rfl
  | succ fuel ih =>
    intro p hp
    unfold findTail
    rw [hnext p hp]
    exact ih ((p + 1) % 3) (Nat.mod_lt _ (by norm_num))

theorem cs_OS_Wait_blocked_none (st : CSState) (fuel p : Nat)
    (hv : st.value - 1 < 0) (hb : st.blockedList = some p)
    (hft : findTail (updTcb st.tcbs st.RunPt
      { st.tcbs st.RunPt with blockSemaPt := 1 }) p fuel = none) :
    cs_OS_Wait st fuel = none := by
  simp only [cs_OS_Wait, hb]
  rw [if_pos hv]
  split
  · rfl
  · next tl heq => exact Option.noConfusion (hft.symm.trans heq)

/-- Claim C2: in Color_Show/os.c the blocked list is threaded through the
scheduler ring pointer next.  After thread 0 waits on a semaphore of value
0 in the launched three-thread ring, OS_Signal does not empty the wait
list: it sets blockedList to the ring successor tcbs[1], a thread that
never waited (blockSemaPt 0); and a second OS_Wait by thread 1 never
finds a NULL next pointer, so its tail-append loop runs forever. -/
theorem C2_color_show_wait_list_bug :
    cs_OS_Wait C2st0 3 = some C2st1 ∧
    (cs_OS_Signal C2st1).value = 0 ∧
    (cs_OS_Signal C2st1).blockedList = some 1 ∧
    ((cs_OS_Signal C2st1).tcbs 1).blockSemaPt = 0 ∧
    (∀ fuel : Nat, cs_OS_Wait C2st2 fuel = none) := by
  refine ⟨rfl, rfl, rfl, rfl, ?_⟩
  intro fuel
  have hnext : ∀ p, p < 3 →
      ((updTcb C2st2.tcbs C2st2.RunPt
        { C2st2.tcbs C2st2.RunPt with blockSemaPt := 1 }) p).next = some ((p + 1) % 3) := by
    intro p hp
    interval_cases p <;> rfl
  exact cs_OS_Wait_blocked_none C2st2 fuel 0 (by decide) rfl
    (findTail_ring3_none _ hnext fuel 0 (by norm_num))

-- ===== C3: Color_Show Scheduler refines the spec tick =====

theorem mod_add_ne (a d n : Nat) (hd0 : 0 < d) (hdn : d < n) :
    (a + d) % n ≠ a % n := by
  intro h
  have hn : 0 < n := by omega
  rw [Nat.add_mod a d n, Nat.mod_eq_of_lt hdn] at h
  have hr : a % n < n := Nat.mod_lt _ hn
  rcases Nat.lt_or_ge (a % n + d) n with hlt | hge
  · rw [Nat.mod_eq_of_lt hlt] at h
    omega
  · have h2 : (a % n + d) % n = a % n + d - n := by
      rw [Nat.mod_eq_sub_mod hge, Nat.mod_eq_of_lt (by omega)]
    rw [h2] at h
    omega

theorem csReady_true (tcbs : Nat → cstcb) (i : Nat) :
    csReady tcbs i = true ↔ ((tcbs i).sleepCount = 0 ∧ (tcbs i).blockSemaPt = 0) := by
  simp [csReady]

theorem schedFind_ring (tcbs : Nat → cstcb) (n runPt : Nat)
    (hn : 0 < n)
    (hring : ∀ i, i < n → (tcbs i).next = some ((i + 1) % n)) :
    ∀ fuel j, j < n → n - j ≤ fuel →
      schedFind tcbs ((runPt + 1) % n) ((runPt + 1 + j) % n) fuel =
        (match ((List.range (n - j)).map (fun k => (runPt + 1 + j + k) % n)).find?
            (csReady tcbs) with
         | some p => some (some p)
         | none => some none) := by
  intro fuel
  induction fuel with
  | zero => intro j hj hf; omega
  | succ fuel ih =>
    intro j hj hf
    have hmsub : n - j = (n - (j + 1)) + 1 := by omega
    have hlist : (List.range (n - j)).map (fun k => (runPt + 1 + j + k) % n) =
        ((runPt + 1 + j) % n) ::
          (List.range (n - (j + 1))).map (fun k => (runPt + 1 + (j + 1) + k) % n) := by
      rw [hmsub, List.range_succ_eq_map, List.map_cons, List.map_map]
      refine congrArg₂ _ (by norm_num) ?_
      refine List.map_congr_left ?_
      intro k _
      show (runPt + 1 + j + (k + 1)) % n = (runPt + 1 + (j + 1) + k) % n
      congr 1
      omega
    rw [hlist]
    unfold schedFind
    by_cases hready : (tcbs ((runPt + 1 + j) % n)).sleepCount = 0 ∧
        (tcbs ((runPt + 1 + j) % n)).blockSemaPt = 0
    · rw [if_pos hready, List.find?_cons_of_pos _ ((csReady_true tcbs _).2 hready)]
    · rw [if_neg hready]
      have hcsr : csReady tcbs ((runPt + 1 + j) % n) = false := by
        rw [Bool.eq_false_iff]
        intro h1
        exact hready ((csReady_true tcbs _).1 h1)
      rw [List.find?_cons_of_neg _ (by simp [hcsr])]
      have hpt : (runPt + 1 + j) % n < n := Nat.mod_lt _ hn
      rcases hnex : (tcbs ((runPt + 1 + j) % n)).next with _ | pt2
      · rw [hring _ hpt] at hnex
        exact Option.noConfusion hnex
      · rw [hring _ hpt] at hnex
        have h2 : pt2 = (runPt + 1 + (j + 1)) % n := by
          have h3 := Option.some.inj hnex
          rw [Nat.mod_add_mod] at h3
          have h4 : runPt + 1 + j + 1 = runPt + 1 + (j + 1) := by omega
          rw [← h3, h4]
        subst h2
        change (if (runPt + 1 + (j + 1)) % n = (runPt + 1) % n then some none
            else schedFind tcbs ((runPt + 1) % n) ((runPt + 1 + (j + 1)) % n) fuel) = _
        by_cases hwrap : j + 1 = n
        · have hpt2 : (runPt + 1 + (j + 1)) % n = (runPt + 1) % n := by
            rw [hwrap, Nat.add_mod_right]
          rw [hpt2]
          have hz : n - (j + 1) = 0 := by omega
          simp [hz]
        · have hne : (runPt + 1 + (j + 1)) % n ≠ (runPt + 1) % n :=
            mod_add_ne (runPt + 1) (j + 1) n (by omega) (by omega)
          rw [if_neg hne]
          exact ih (j + 1) (by omega) (by omega)

/-- Claim C3: on every tick, the Color_Show Scheduler first decrements
each positive sleep counter by one, then sets the running thread to the
first TCB from the successor of RunPt around the ring with sleep counter 0
and no blocked-on marker, keeping the current thread when no TCB
qualifies.  Stated as a refinement: the code-level Scheduler equals the
spec-level schedulerSpec on every launched ring state, for any fuel
covering the ring. -/
theorem C3_scheduler_refines_spec (s : CSState) (fuel : Nat)
    (hn : 0 < s.NumThreads)
    (hrun : s.RunPt < s.NumThreads)
    (hring : ∀ i, i < s.NumThreads → (s.tcbs i).next = some ((i + 1) % s.NumThreads))
    (hfuel : s.NumThreads ≤ fuel) :
    Scheduler s fuel = some (schedulerSpec s) := by
  have hring2 : ∀ i, i < s.NumThreads →
      ((tickDec s.tcbs s.NumThreads) i).next = some ((i + 1) % s.NumThreads) := by
    intro i hi
    have h := hring i hi
    unfold tickDec
    by_cases hcond : i < s.NumThreads ∧ 0 < (s.tcbs i).sleepCount
    · rw [if_pos hcond]; exact h
    · rw [if_neg hcond]; exact h
  have hw := schedFind_ring (tickDec s.tcbs s.NumThreads) s.NumThreads s.RunPt hn hring2
      fuel 0 hn (by omega)
  simp only [Nat.add_zero, Nat.sub_zero] at hw
  simp only [Scheduler, schedulerSpec, ringFrom]
  simp only [hring2 s.RunPt hrun]
  rw [hw]
  cases hfind : ((List.range s.NumThreads).map
      (fun k => (s.RunPt + 1 + k) % s.NumThreads)).find?
      (csReady (tickDec s.tcbs s.NumThreads)) with
  | none => rfl
  | some p => rfl

/-- Witness for C3_scheduler_refines_spec on a concrete three-thread ring
with a sleeping, a blocked and a ready thread. -/
theorem C3_witness : Scheduler C3state 3 = some (schedulerSpec C3state) :=
  C3_scheduler_refines_spec C3state 3 (by decide) (by decide)
    (by intro i hi
        have h3 : i < 3 := hi
        interval_cases i <;> rfl) (by decide)

-- ===== C4: OS_Fifo_Put is non-blocking with a lost counter =====

/-- Claim C4: OS_Fifo_Put never blocks; with the FIFO holding FIFOSIZE
elements it increments LostData and returns the FIFO-full status -1
without modifying the buffer, otherwise it stores at the tail, advances
the tail modulo FIFOSIZE, signals the size semaphore and returns 0.
Putting 1..12 into the empty FIFO loses exactly 2 and leaves 1..10 in the
buffer. -/
theorem C4_fifo_put (s : FifoState) (x : Nat) :
    (s.CurrentSize = (FIFOSIZE : Int) →
      OS_Fifo_Put s x = (-1, { s with LostData := s.LostData + 1 })) ∧
    (s.CurrentSize ≠ (FIFOSIZE : Int) →
      OS_Fifo_Put s x =
        (0, { s with Fifo := upd s.Fifo s.PutI x
                     PutI := (s.PutI + 1) % FIFOSIZE
                     CurrentSize := s.CurrentSize + 1 })) ∧
    (fifoPutSeq OS_Fifo_Init [1, 2, 3, 4, 5, 6, 7, 8, 9, 10, 11, 12]).LostData = 2 ∧
    (fifoPutSeq OS_Fifo_Init [1, 2, 3, 4, 5, 6, 7, 8, 9, 10, 11, 12]).CurrentSize = 10 ∧
    (∀ i, i < 10 →
      (fifoPutSeq OS_Fifo_Init [1, 2, 3, 4, 5, 6, 7, 8, 9, 10, 11, 12]).Fifo i = i + 1) := by
  refine ⟨?_, ?_, by decide, by decide, by decide⟩
  · intro hfull
    unfold OS_Fifo_Put
    rw [if_pos hfull]
  · intro hnf
    unfold OS_Fifo_Put
    rw [if_neg hnf]

/-- Witness for C4_fifo_put: a put on the full FIFO reached by putting
1..10 loses the message. -/
theorem C4_witness :
    OS_Fifo_Put (fifoPutSeq OS_Fifo_Init [1, 2, 3, 4, 5, 6, 7, 8, 9, 10]) 99 =
      (-1, { fifoPutSeq OS_Fifo_Init [1, 2, 3, 4, 5, 6, 7, 8, 9, 10] with
             LostData := (fifoPutSeq OS_Fifo_Init [1, 2, 3, 4, 5, 6, 7, 8, 9, 10]).LostData + 1 }) :=
  (C4_fifo_put (fifoPutSeq OS_Fifo_Init [1, 2, 3, 4, 5, 6, 7, 8, 9, 10]) 99).1 (by decide)

-- ===== C5: flush then mount restores the RAM state =====

theorem and255_eq_mod (x : Nat) : x &&& 255 = x % 256 := by
  have h : (255 : Nat) = 2 ^ 8 - 1 := by norm_num
  rw [h, Nat.and_pow_two_sub_one_eq_mod]

theorem word_pack (b0 b1 b2 b3 : Nat)
    (h0 : b0 < 256) (h1 : b1 < 256) (h2 : b2 < 256) (h3 : b3 < 256) :
    b0 ||| b1 <<< 8 ||| b2 <<< 16 ||| b3 <<< 24 =
      b0 + b1 * 256 + b2 * 65536 + b3 * 16777216 := by
  have e1 : b0 ||| b1 <<< 8 = 2 ^ 8 * b1 + b0 := by
    rw [Nat.shiftLeft_eq, Nat.mul_comm b1 (2 ^ 8)]
    rw [Nat.mul_add_lt_is_or (by norm_num; omega : b0 < 2 ^ 8) b1]
    rw [Nat.lor_comm]
  have e2 : b0 ||| b1 <<< 8 ||| b2 <<< 16 = 2 ^ 16 * b2 + (2 ^ 8 * b1 + b0) := by
    rw [e1, Nat.shiftLeft_eq, Nat.mul_comm b2 (2 ^ 16)]
    rw [Nat.mul_add_lt_is_or (by norm_num; omega : 2 ^ 8 * b1 + b0 < 2 ^ 16) b2]
    rw [Nat.lor_comm]
  have e3 : b0 ||| b1 <<< 8 ||| b2 <<< 16 ||| b3 <<< 24 =
      2 ^ 24 * b3 + (2 ^ 16 * b2 + (2 ^ 8 * b1 + b0)) := by
    rw [e2, Nat.shiftLeft_eq, Nat.mul_comm b3 (2 ^ 24)]
    rw [Nat.mul_add_lt_is_or (by norm_num; omega : 2 ^ 16 * b2 + (2 ^ 8 * b1 + b0) < 2 ^ 24) b3]
    rw [Nat.lor_comm]
  rw [e3]
  norm_num
  omega

theorem word_unpack (b0 b1 b2 b3 : Nat)
    (h0 : b0 < 256) (h1 : b1 < 256) (h2 : b2 < 256) (h3 : b3 < 256) :
    (b0 + b1 * 256 + b2 * 65536 + b3 * 16777216) &&& 255 = b0 ∧
    ((b0 + b1 * 256 + b2 * 65536 + b3 * 16777216) >>> 8) &&& 255 = b1 ∧
    ((b0 + b1 * 256 + b2 * 65536 + b3 * 16777216) >>> 16) &&& 255 = b2 ∧
    ((b0 + b1 * 256 + b2 * 65536 + b3 * 16777216) >>> 24) &&& 255 = b3 := by
  refine ⟨?_, ?_, ?_, ?_⟩
  all_goals simp only [and255_eq_mod, Nat.shiftRight_eq_div_pow]
  all_goals try norm_num
  all_goals omega

theorem Flash_Write_ok (fl : Flash) (addr data : Nat)
    (h0 : fl addr = 255) (h1 : fl (addr + 1) = 255)
    (h2 : fl (addr + 2) = 255) (h3 : fl (addr + 3) = 255) :
    (Flash_Write fl addr data).1 = 0 ∧
    (Flash_Write fl addr data).2 addr = data &&& 255 ∧
    (Flash_Write fl addr data).2 (addr + 1) = (data >>> 8) &&& 255 ∧
    (Flash_Write fl addr data).2 (addr + 2) = (data >>> 16) &&& 255 ∧
    (Flash_Write fl addr data).2 (addr + 3) = (data >>> 24) &&& 255 ∧
    (∀ a, a ≠ addr → a ≠ addr + 1 → a ≠ addr + 2 → a ≠ addr + 3 →
      (Flash_Write fl addr data).2 a = fl a) := by
  unfold Flash_Write
  rw [if_pos ⟨h0, h1, h2, h3⟩]
  refine ⟨rfl, ?_, ?_, ?_, ?_, ?_⟩
  · show (if addr = addr then data &&& 255 else _) = data &&& 255
    rw [if_pos rfl]
  · show (if addr + 1 = addr then _ else if addr + 1 = addr + 1 then _ else _) =
      (data >>> 8) &&& 255
    rw [if_neg (by omega), if_pos rfl]
  · show (if addr + 2 = addr then _ else if addr + 2 = addr + 1 then _
      else if addr + 2 = addr + 2 then _ else _) = (data >>> 16) &&& 255
    rw [if_neg (by omega), if_neg (by omega), if_pos rfl]
  · show (if addr + 3 = addr then _ else if addr + 3 = addr + 1 then _
      else if addr + 3 = addr + 2 then _ else if addr + 3 = addr + 3 then _ else _) =
      (data >>> 24) &&& 255
    rw [if_neg (by omega), if_neg (by omega), if_neg (by omega), if_pos rfl]
  · intro a ha0 ha1 ha2 ha3
    show (if a = addr then _ else if a = addr + 1 then _ else if a = addr + 2 then _
      else if a = addr + 3 then _ else fl a) = fl a
    rw [if_neg ha0, if_neg ha1, if_neg ha2, if_neg ha3]

theorem edisk_go_ok (buf : Nat → Nat) (base : Nat) :
    ∀ k i fl,
      (∀ j, i ≤ j → j < i + 4 * k → fl (base + j) = 255) →
      (∀ j, i ≤ j → j < i + 4 * k → buf j < 256) →
      (eDisk_write_go buf base fl i k).1 = 0 ∧
      (∀ j, i ≤ j → j < i + 4 * k → (eDisk_write_go buf base fl i k).2 (base + j) = buf j) ∧
      (∀ a, (∀ j, i ≤ j → j < i + 4 * k → a ≠ base + j) →
        (eDisk_write_go buf base fl i k).2 a = fl a) := by
  intro k
  induction k with
  | zero =>
    intro i fl _ _
    refine ⟨rfl, ?_, ?_⟩
    · intro j hj1 hj2; omega
    · intro a _; rfl
  | succ k ih =>
    intro i fl herased hbuf
    have ha0 : fl (base + i) = 255 := herased i (by omega) (by omega)
    have ha1 : fl (base + i + 1) = 255 := by
      have := herased (i + 1) (by omega) (by omega)
      rw [show base + i + 1 = base + (i + 1) by omega]
      exact this
    have ha2 : fl (base + i + 2) = 255 := by
      have := herased (i + 2) (by omega) (by omega)
      rw [show base + i + 2 = base + (i + 2) by omega]
      exact this
    have ha3 : fl (base + i + 3) = 255 := by
      have := herased (i + 3) (by omega) (by omega)
      rw [show base + i + 3 = base + (i + 3) by omega]
      exact this
    have hb0 : buf i < 256 := hbuf i (by omega) (by omega)
    have hb1 : buf (i + 1) < 256 := hbuf (i + 1) (by omega) (by omega)
    have hb2 : buf (i + 2) < 256 := hbuf (i + 2) (by omega) (by omega)
    have hb3 : buf (i + 3) < 256 := hbuf (i + 3) (by omega) (by omega)
    have hfw := Flash_Write_ok fl (base + i)
      (buf i ||| buf (i + 1) <<< 8 ||| buf (i + 2) <<< 16 ||| buf (i + 3) <<< 24)
      ha0 ha1 ha2 ha3
    set w := buf i ||| buf (i + 1) <<< 8 ||| buf (i + 2) <<< 16 ||| buf (i + 3) <<< 24 with hw
    set fl2 := (Flash_Write fl (base + i) w).2 with hfl2
    have hst : (Flash_Write fl (base + i) w).1 = 0 := hfw.1
    have hunf : eDisk_write_go buf base fl i (k + 1) = eDisk_write_go buf base fl2 (i + 4) k := by
      show (if (Flash_Write fl (base + i) w).1 ≠ 0 then (1, (Flash_Write fl (base + i) w).2)
            else eDisk_write_go buf base (Flash_Write fl (base + i) w).2 (i + 4) k) =
          eDisk_write_go buf base fl2 (i + 4) k
      rw [hst]
      simp
    have hpack : w = buf i + buf (i + 1) * 256 + buf (i + 2) * 65536 + buf (i + 3) * 16777216 :=
      word_pack _ _ _ _ hb0 hb1 hb2 hb3
    have hup := word_unpack (buf i) (buf (i + 1)) (buf (i + 2)) (buf (i + 3)) hb0 hb1 hb2 hb3
    have hby0 : fl2 (base + i) = buf i := by
      rw [hfw.2.1, hpack]
      exact hup.1
    have hby1 : fl2 (base + (i + 1)) = buf (i + 1) := by
      rw [show base + (i + 1) = base + i + 1 by omega]
      rw [hfw.2.2.1, hpack]
      exact hup.2.1
    have hby2 : fl2 (base + (i + 2)) = buf (i + 2) := by
      rw [show base + (i + 2) = base + i + 2 by omega]
      rw [hfw.2.2.2.1, hpack]
      exact hup.2.2.1
    have hby3 : fl2 (base + (i + 3)) = buf (i + 3) := by
      rw [show base + (i + 3) = base + i + 3 by omega]
      rw [hfw.2.2.2.2.1, hpack]
      exact hup.2.2.2
    have hfl2other : ∀ a, a ≠ base + i → a ≠ base + i + 1 → a ≠ base + i + 2 →
        a ≠ base + i + 3 → fl2 a = fl a := by
      intro a n0 n1 n2 n3
      exact hfw.2.2.2.2.2 a n0 n1 n2 n3
    have hrec := ih (i + 4) fl2 ?_ ?_
    · rw [hunf]
      refine ⟨hrec.1, ?_, ?_⟩
      · intro j hj1 hj2
        by_cases hjlow : j < i + 4
        · rw [hrec.2.2 (base + j) (by intro j2 hj21 hj22; omega)]
          rcases (by omega : j = i ∨ j = i + 1 ∨ j = i + 2 ∨ j = i + 3) with h | h | h | h
          · rw [h]; exact hby0
          · rw [h]; exact hby1
          · rw [h]; exact hby2
          · rw [h]; exact hby3
        · exact hrec.2.1 j (by omega) (by omega)
      · intro a huntouched
        rw [hrec.2.2 a (by intro j2 hj21 hj22; exact huntouched j2 (by omega) (by omega))]
        exact hfl2other a
          (by have := huntouched i (by omega) (by omega); omega)
          (by have := huntouched (i + 1) (by omega) (by omega); omega)
          (by have := huntouched (i + 2) (by omega) (by omega); omega)
          (by have := huntouched (i + 3) (by omega) (by omega); omega)
    · intro j hj1 hj2
      rw [hfl2other (base + j) (by omega) (by omega) (by omega) (by omega)]
      exact herased j (by omega) (by omega)
    · intro j hj1 hj2
      exact hbuf j (by omega) (by omega)

theorem eDisk_WriteSector_ok (fl : Flash) (buf : Nat → Nat) (n : Nat)
    (herased : ∀ j, j < SECTOR_SIZE → fl (DISK_START_ADDRESS + n * SECTOR_SIZE + j) = 255)
    (hbuf : ∀ j, j < SECTOR_SIZE → buf j < 256) :
    (eDisk_WriteSector fl buf n).1 = 0 ∧
    (∀ j, j < SECTOR_SIZE →
      (eDisk_WriteSector fl buf n).2 (DISK_START_ADDRESS + n * SECTOR_SIZE + j) = buf j) ∧
    (∀ a, (∀ j, j < SECTOR_SIZE → a ≠ DISK_START_ADDRESS + n * SECTOR_SIZE + j) →
      (eDisk_WriteSector fl buf n).2 a = fl a) := by
  have hk : 0 + 4 * (SECTOR_SIZE / 4) = SECTOR_SIZE := by decide
  have h := edisk_go_ok buf (DISK_START_ADDRESS + n * SECTOR_SIZE) (SECTOR_SIZE / 4) 0 fl
    (by intro j _ hj2; exact herased j (by omega))
    (by intro j _ hj2; exact hbuf j (by omega))
  refine ⟨h.1, ?_, ?_⟩
  · intro j hj
    exact h.2.1 j (by omega) (by omega)
  · intro a ha
    exact h.2.2 a (by intro j _ hj2; exact ha j (by omega))

theorem OS_File_Flush_ok (s : FSState) (fl : Flash)
    (hbytes : ∀ i, i < DIRECTORY_SIZE → s.dir i < 256 ∧ s.fat i < 256)
    (herased : ∀ k, k < SECTOR_SIZE →
      fl (DISK_START_ADDRESS + METADATA_SECTOR * SECTOR_SIZE + k) = 255) :
    (OS_File_Flush s fl).1 = FS_SUCCESS ∧
    (∀ k, k < SECTOR_SIZE →
      (OS_File_Flush s fl).2 (DISK_START_ADDRESS + METADATA_SECTOR * SECTOR_SIZE + k) =
        flushBuffer s k) := by
  have hS : SECTOR_SIZE = 512 := rfl
  have hD : DIRECTORY_SIZE = 256 := rfl
  have hbuf : ∀ j, j < SECTOR_SIZE → flushBuffer s j < 256 := by
    intro j hj
    unfold flushBuffer
    by_cases hlt : j < DIRECTORY_SIZE
    · rw [if_pos hlt]
      exact (hbytes j hlt).1
    · rw [if_neg hlt]
      exact (hbytes (j - DIRECTORY_SIZE) (by omega)).2
  have h := eDisk_WriteSector_ok fl (flushBuffer s) METADATA_SECTOR herased hbuf
  have hflush2 : OS_File_Flush s fl =
      (FS_SUCCESS, (eDisk_WriteSector fl (flushBuffer s) METADATA_SECTOR).2) := by
    simp only [OS_File_Flush]
    rw [h.1]
    simp
  rw [hflush2]
  exact ⟨rfl, fun k hk => h.2.1 k hk⟩

/-- Claim C5: OS_File_Flush writes the RAM directory into bytes [0,256)
and the RAM FAT into bytes [256,512) of the metadata sector, and
OS_File_Mount reads them back: with the metadata sector erased beforehand
(so every flash write succeeds) a mount from any RAM state after a flush
restores RAM_Directory and RAM_FAT exactly. -/
theorem C5_flush_mount (s s0 : FSState) (fl : Flash)
    (hbytes : ∀ i, i < DIRECTORY_SIZE → s.dir i < 256 ∧ s.fat i < 256)
    (herased : ∀ k, k < SECTOR_SIZE →
      fl (DISK_START_ADDRESS + METADATA_SECTOR * SECTOR_SIZE + k) = 255) :
    (OS_File_Flush s fl).1 = FS_SUCCESS ∧
    (∀ i, i < DIRECTORY_SIZE →
      (OS_File_Mount s0 (OS_File_Flush s fl).2).dir i = s.dir i) ∧
    (∀ i, i < FAT_SIZE →
      (OS_File_Mount s0 (OS_File_Flush s fl).2).fat i = s.fat i) := by
  have hS : SECTOR_SIZE = 512 := rfl
  have hD : DIRECTORY_SIZE = 256 := rfl
  have hF : FAT_SIZE = 256 := rfl
  obtain ⟨h1, h2⟩ := OS_File_Flush_ok s fl hbytes herased
  refine ⟨h1, ?_, ?_⟩
  · intro i hi
    show (if i < DIRECTORY_SIZE then
        (OS_File_Flush s fl).2 (DISK_START_ADDRESS + METADATA_SECTOR * SECTOR_SIZE + i)
      else s0.dir i) = s.dir i
    rw [if_pos hi, h2 i (by omega)]
    unfold flushBuffer
    rw [if_pos hi]
  · intro i hi
    show (if i < FAT_SIZE then
        (OS_File_Flush s fl).2
          (DISK_START_ADDRESS + METADATA_SECTOR * SECTOR_SIZE + (i + DIRECTORY_SIZE))
      else s0.fat i) = s.fat i
    rw [if_pos hi, h2 (i + DIRECTORY_SIZE) (by omega)]
    unfold flushBuffer
    rw [if_neg (by omega)]
    rw [show i + DIRECTORY_SIZE - DIRECTORY_SIZE = i by omega]

/-- Witness for C5_flush_mount: flush the freshly initialised RAM state to
erased flash, zero the RAM arrays, and mount. -/
theorem C5_witness :
    (OS_File_Flush OS_FS_Init (fun _ => 255)).1 = FS_SUCCESS ∧
    (∀ i, i < DIRECTORY_SIZE →
      (OS_File_Mount { dir := fun _ => 0, fat := fun _ => 0 }
        (OS_File_Flush OS_FS_Init (fun _ => 255)).2).dir i = OS_FS_Init.dir i) ∧
    (∀ i, i < FAT_SIZE →
      (OS_File_Mount { dir := fun _ => 0, fat := fun _ => 0 }
        (OS_File_Flush OS_FS_Init (fun _ => 255)).2).fat i = OS_FS_Init.fat i) :=
  C5_flush_mount OS_FS_Init { dir := fun _ => 0, fat := fun _ => 0 } (fun _ => 255)
    (by intro i _; exact ⟨Nat.lt_succ_self 255, Nat.lt_succ_self 255⟩)
    (by intro k _; rfl)

-- ===== C1: chain machinery =====

theorem getLastD_cons_my (a b : Nat) (l : List Nat) : (b :: l).getLastD a = l.getLastD b := by
  cases l <;> rfl

theorem isChain_congr (fat fat2 : Nat → Nat) :
    ∀ (l : List Nat) (h : Nat), (∀ x ∈ l, fat2 x = fat x) → isChain fat h l →
      isChain fat2 h l := by
  intro l
  induction l with
  | nil => intro h _ hc; exact hc
  | cons a rest ih =>
    intro h hag hc
    obtain ⟨hha, hrest⟩ := hc
    refine ⟨hha, ?_⟩
    rw [hag a (by simp)]
    exact ih (fat a) (fun x hx => hag x (by simp [hx])) hrest

theorem chainWalk_of_isChain (fat : Nat → Nat) :
    ∀ (l : List Nat) (h fuel : Nat), isChain fat h l →
      (∀ x ∈ l, x ≠ SECTOR_FREE) → l.length ≤ fuel → chainWalk fat h fuel = l := by
  intro l
  induction l with
  | nil =>
    intro h fuel hc _ _
    have hh : h = SECTOR_FREE := hc
    cases fuel with
    | zero => rfl
    | succ fuel =>
      unfold chainWalk
      rw [if_pos hh]
  | cons a rest ih =>
    intro h fuel hc hne hlen
    obtain ⟨hha, hrest⟩ := hc
    cases fuel with
    | zero => simp at hlen
    | succ fuel =>
      unfold chainWalk
      rw [if_neg (by rw [hha]; exact hne a (by simp))]
      rw [hha]
      rw [ih (fat a) fuel hrest (fun x hx => hne x (by simp [hx])) (by simpa using hlen)]

theorem file_size_loop_of_isChain (fat : Nat → Nat) :
    ∀ (l : List Nat) (h count : Nat), isChain fat h l →
      (∀ x ∈ l, x ≠ SECTOR_FREE) → count + l.length ≤ NUM_SECTORS →
      file_size_loop fat h count = count + l.length := by
  intro l
  induction l with
  | nil =>
    intro h count hc _ _
    have hh : h = SECTOR_FREE := hc
    unfold file_size_loop
    simp [hh]
  | cons a rest ih =>
    intro h count hc hne hlen
    obtain ⟨hha, hrest⟩ := hc
    subst hha
    have hane : h ≠ SECTOR_FREE := hne h (by simp)
    have hg : ¬count + 1 > NUM_SECTORS := by simp at hlen; omega
    unfold file_size_loop
    rw [if_neg hane]
    show (if _h : count + 1 > NUM_SECTORS then 0
        else file_size_loop fat (fat h) (count + 1)) = count + (h :: rest).length
    rw [dif_neg hg]
    rw [ih (fat h) (count + 1) hrest (fun x hx => hne x (by simp [hx]))
      (by simp at hlen ⊢; omega)]
    simp only [List.length_cons]
    omega

theorem last_sector_loop_of_isChain (fat : Nat → Nat) :
    ∀ (l : List Nat) (a count : Nat), isChain fat (fat a) l →
      (∀ x ∈ l, x ≠ SECTOR_FREE) → count + l.length ≤ NUM_SECTORS →
      last_sector_loop fat a count = l.getLastD a := by
  intro l
  induction l with
  | nil =>
    intro a count hc _ _
    have hh : fat a = SECTOR_FREE := hc
    unfold last_sector_loop
    simp [hh]
  | cons b rest ih =>
    intro a count hc hne hlen
    obtain ⟨hfb, hrest⟩ := hc
    have hbne : b ≠ SECTOR_FREE := hne b (by simp)
    have hg : ¬count + 1 > NUM_SECTORS := by simp at hlen; omega
    unfold last_sector_loop
    show (if fat a = SECTOR_FREE then a
        else if _h : count + 1 > NUM_SECTORS then SECTOR_FREE
        else last_sector_loop fat (fat a) (count + 1)) = (b :: rest).getLastD a
    rw [hfb]
    rw [if_neg hbne, dif_neg hg]
    rw [ih b (count + 1) hrest (fun x hx => hne x (by simp [hx]))
      (by simp at hlen ⊢; omega)]
    rw [getLastD_cons_my]

theorem append_fat_go_of_isChain (fat : Nat → Nat) (n : Nat) :
    ∀ (l : List Nat) (a fuel : Nat), isChain fat (fat a) l →
      (∀ x ∈ l, x ≠ SECTOR_FREE) → l.length < fuel →
      append_fat_go fat n a fuel = some (upd fat (l.getLastD a) n) := by
  intro l
  induction l with
  | nil =>
    intro a fuel hc _ hlen
    cases fuel with
    | zero => omega
    | succ fuel =>
      have hh : fat a = SECTOR_FREE := hc
      unfold append_fat_go
      simp [hh]
  | cons b rest ih =>
    intro a fuel hc hne hlen
    obtain ⟨hfb, hrest⟩ := hc
    cases fuel with
    | zero => simp at hlen
    | succ fuel =>
      have hbne : b ≠ SECTOR_FREE := hne b (by simp)
      unfold append_fat_go
      show (if fat a = SECTOR_FREE then some (upd fat a n)
          else append_fat_go fat n (fat a) fuel) =
        some (upd fat ((b :: rest).getLastD a) n)
      rw [hfb]
      rw [if_neg hbne]
      rw [ih b fuel hrest (fun x hx => hne x (by simp [hx])) (by simp at hlen ⊢; omega)]
      rw [getLastD_cons_my]

theorem chain_lt_nodup (l : List Nat) (h : List.Chain' (· < ·) l) : l.Nodup :=
  (List.chain'_iff_pairwise.1 h).imp (fun hlt => Nat.ne_of_lt hlt)

theorem length_le_of_forall_lt (l : List Nat) (B : Nat) (hn : l.Nodup)
    (hb : ∀ x ∈ l, x < B) : l.length ≤ B := by
  have hsub : l.toFinset ⊆ Finset.range B := by
    intro x hx
    rw [Finset.mem_range]
    exact hb x (List.mem_toFinset.1 hx)
  have hcard := Finset.card_le_card hsub
  rw [List.toFinset_card_of_nodup hn, Finset.card_range] at hcard
  exact hcard

theorem ffs_scan_eq (s : FSState) (acc : Int) (i : Nat) :
    ffs_scan s acc i =
      if s.dir i ≠ FILE_EMPTY then
        (if last_sector s.fat (s.dir i) ≠ SECTOR_FREE then
          (if (last_sector s.fat (s.dir i) : Int) > acc
            then (last_sector s.fat (s.dir i) : Int) else acc)
        else acc)
      else acc := rfl

theorem ffs_scan_ge (s : FSState) (acc : Int) (i : Nat) : acc ≤ ffs_scan s acc i := by
  rw [ffs_scan_eq]
  split_ifs <;> omega

theorem foldl_ffs_ge (s : FSState) :
    ∀ (l : List Nat) (acc : Int), acc ≤ l.foldl (ffs_scan s) acc := by
  intro l
  induction l with
  | nil => intro acc; simp
  | cons x rest ih =>
    intro acc
    simp only [List.foldl_cons]
    exact le_trans (ffs_scan_ge s acc x) (ih (ffs_scan s acc x))

theorem foldl_ffs_le (s : FSState) (m : Int) :
    ∀ (l : List Nat) (acc : Int), acc ≤ m →
      (∀ i ∈ l, s.dir i ≠ FILE_EMPTY → last_sector s.fat (s.dir i) ≠ SECTOR_FREE →
        (last_sector s.fat (s.dir i) : Int) ≤ m) →
      l.foldl (ffs_scan s) acc ≤ m := by
  intro l
  induction l with
  | nil => intro acc hacc _; simpa using hacc
  | cons x rest ih =>
    intro acc hacc hmem
    simp only [List.foldl_cons]
    refine ih (ffs_scan s acc x) ?_ (fun i hi => hmem i (by simp [hi]))
    rw [ffs_scan_eq]
    split_ifs with h1 h2 h3
    · exact hmem x (by simp) h1 h2
    · exact hacc
    · exact hacc
    · exact hacc

theorem foldl_ffs_mem_ge (s : FSState) :
    ∀ (l : List Nat) (acc : Int) (i : Nat), i ∈ l →
      s.dir i ≠ FILE_EMPTY → last_sector s.fat (s.dir i) ≠ SECTOR_FREE →
      (last_sector s.fat (s.dir i) : Int) ≤ l.foldl (ffs_scan s) acc := by
  intro l
  induction l with
  | nil => intro acc i hi; simp at hi
  | cons x rest ih =>
    intro acc i hi h1 h2
    simp only [List.foldl_cons]
    rcases List.mem_cons.1 hi with rfl | hrest
    · have h4 : (last_sector s.fat (s.dir i) : Int) ≤ ffs_scan s acc i := by
        rw [ffs_scan_eq, if_pos h1, if_pos h2]
        split_ifs with h3 <;> omega
      exact le_trans h4 (foldl_ffs_ge s rest _)
    · exact ih _ i hrest h1 h2

theorem foldl_ffs_empty (s : FSState) :
    ∀ (l : List Nat) (acc : Int), (∀ i ∈ l, s.dir i = FILE_EMPTY) →
      l.foldl (ffs_scan s) acc = acc := by
  intro l
  induction l with
  | nil => intro acc _; rfl
  | cons x rest ih =>
    intro acc hall
    simp only [List.foldl_cons]
    rw [show ffs_scan s acc x = acc by
      rw [ffs_scan_eq, if_neg (by simp [hall x (by simp)])]]
    exact ih acc (fun i hi => hall i (by simp [hi]))

theorem find_free_sector_eq (s : FSState) :
    find_free_sector s =
      if (List.range DIRECTORY_SIZE).foldl (ffs_scan s) (-1) + 1 ≥ (METADATA_SECTOR : Int)
      then FS_DISK_FULL
      else ((List.range DIRECTORY_SIZE).foldl (ffs_scan s) (-1) + 1).toNat := rfl

theorem chain_elem_ne_free (s : FSState) (cnt : Nat → Nat) (ch : Nat → List Nat) (B : Nat)
    (hInv : FSInv s cnt ch B) : ∀ i x, x ∈ ch i → x ≠ SECTOR_FREE := by
  intro i x hx
  have h1 := hInv.ltB i x hx
  have h2 := hInv.bLe
  have hM : METADATA_SECTOR = 255 := rfl
  have hSF : SECTOR_FREE = 255 := rfl
  omega

theorem chain_len_le (s : FSState) (cnt : Nat → Nat) (ch : Nat → List Nat) (B : Nat)
    (hInv : FSInv s cnt ch B) : ∀ i, (ch i).length ≤ B := fun i =>
  length_le_of_forall_lt _ B (chain_lt_nodup _ (hInv.incr i)) (hInv.ltB i)

theorem dir_empty_iff_chain_nil (s : FSState) (cnt : Nat → Nat) (ch : Nat → List Nat) (B : Nat)
    (hInv : FSInv s cnt ch B) :
    ∀ i, i ≤ MAX_FILE_NUMBER → (s.dir i = FILE_EMPTY ↔ ch i = []) := by
  intro i hi
  constructor
  · intro hdir
    cases hch : ch i with
    | nil => rfl
    | cons a l =>
      have hc := hInv.isCh i hi
      rw [hch] at hc
      obtain ⟨hda, _⟩ := hc
      have ha := hInv.ltB i a (by rw [hch]; simp)
      have h2 := hInv.bLe
      have hM : METADATA_SECTOR = 255 := rfl
      have hFE : FILE_EMPTY = 255 := rfl
      omega
  · intro hch
    have hc := hInv.isCh i hi
    rw [hch] at hc
    exact hc

theorem last_sector_inv (s : FSState) (cnt : Nat → Nat) (ch : Nat → List Nat) (B : Nat)
    (hInv : FSInv s cnt ch B) :
    ∀ i a l, i ≤ MAX_FILE_NUMBER → ch i = a :: l →
      last_sector s.fat (s.dir i) = l.getLastD a := by
  intro i a l hi hch
  have hc := hInv.isCh i hi
  rw [hch] at hc
  obtain ⟨hda, hrest⟩ := hc
  have hane : a ≠ FILE_EMPTY :=
    chain_elem_ne_free s cnt ch B hInv i a (by rw [hch]; simp)
  have hlen : (a :: l).length ≤ B := by rw [← hch]; exact chain_len_le s cnt ch B hInv i
  have hN : NUM_SECTORS = 256 := rfl
  have hM : METADATA_SECTOR = 255 := rfl
  have hB := hInv.bLe
  unfold last_sector
  rw [if_neg (by rw [hda]; exact hane)]
  rw [hda]
  exact last_sector_loop_of_isChain s.fat l a 0 hrest
    (fun x hx => chain_elem_ne_free s cnt ch B hInv i x (by rw [hch]; simp [hx]))
    (by simp at hlen; omega)

theorem find_free_sector_inv (s : FSState) (cnt : Nat → Nat) (ch : Nat → List Nat) (B : Nat)
    (hInv : FSInv s cnt ch B) : find_free_sector s = B := by
  have hM : METADATA_SECTOR = 255 := rfl
  have hMF : MAX_FILE_NUMBER = 254 := rfl
  have hD : DIRECTORY_SIZE = 256 := rfl
  have hB := hInv.bLe
  by_cases hB0 : B = 0
  · have hall : ∀ i ∈ List.range DIRECTORY_SIZE, s.dir i = FILE_EMPTY := by
      intro i _
      by_cases hile : i ≤ MAX_FILE_NUMBER
      · refine (dir_empty_iff_chain_nil s cnt ch B hInv i hile).2 ?_
        rw [List.eq_nil_iff_forall_not_mem]
        intro x hx
        have := hInv.ltB i x hx
        omega
      · exact hInv.dirHigh i (by omega)
    rw [find_free_sector_eq, foldl_ffs_empty s _ _ hall]
    rw [if_neg (by norm_num)]
    rw [hB0]
    decide
  · obtain ⟨i0, hi0le, hi0last⟩ := hInv.top (by omega)
    cases hch0 : ch i0 with
    | nil => rw [hch0] at hi0last; simp at hi0last
    | cons a l =>
      rw [hch0] at hi0last
      have hlastD : l.getLastD a = B - 1 := by
        have h1 := List.getLastD_eq_getLast? a (a :: l)
        rw [getLastD_cons_my, hi0last] at h1
        simpa using h1
      have hdir0 : s.dir i0 = a := by
        have hc := hInv.isCh i0 hi0le
        rw [hch0] at hc
        exact hc.1
      have hdir0ne : s.dir i0 ≠ FILE_EMPTY := by
        rw [hdir0]
        exact chain_elem_ne_free s cnt ch B hInv i0 a (by rw [hch0]; simp)
      have hls0 : last_sector s.fat (s.dir i0) = B - 1 := by
        rw [last_sector_inv s cnt ch B hInv i0 a l hi0le hch0]
        exact hlastD
      have hls0ne : last_sector s.fat (s.dir i0) ≠ SECTOR_FREE := by
        rw [hls0]
        show B - 1 ≠ 255
        omega
      have hub : ∀ i ∈ List.range DIRECTORY_SIZE, s.dir i ≠ FILE_EMPTY →
          last_sector s.fat (s.dir i) ≠ SECTOR_FREE →
          (last_sector s.fat (s.dir i) : Int) ≤ ((B - 1 : Nat) : Int) := by
        intro i _ h1 _
        by_cases hile : i ≤ MAX_FILE_NUMBER
        · cases hchi : ch i with
          | nil =>
            exact absurd ((dir_empty_iff_chain_nil s cnt ch B hInv i hile).2 hchi) h1
          | cons a2 l2 =>
            rw [last_sector_inv s cnt ch B hInv i a2 l2 hile hchi]
            have hmem : l2.getLastD a2 ∈ ch i := by
              rw [hchi]
              exact List.getLastD_mem_cons l2 a2
            have := hInv.ltB i _ hmem
            have hcast : (l2.getLastD a2 : Int) ≤ ((B - 1 : Nat) : Int) := by
              push_cast
              omega
            exact hcast
        · exact absurd (hInv.dirHigh i (by omega)) h1
      have hlb := foldl_ffs_mem_ge s (List.range DIRECTORY_SIZE) (-1) i0
        (List.mem_range.2 (by omega)) hdir0ne hls0ne
      rw [hls0] at hlb
      have hle := foldl_ffs_le s ((B - 1 : Nat) : Int) (List.range DIRECTORY_SIZE) (-1)
        (by push_cast; omega) hub
      have hfold : (List.range DIRECTORY_SIZE).foldl (ffs_scan s) (-1) = ((B - 1 : Nat) : Int) :=
        le_antisymm hle hlb
      rw [find_free_sector_eq, hfold]
      by_cases hBfull : B = 255
      · rw [if_pos (by push_cast; omega)]
        rw [hBfull]
      · rw [if_neg (by push_cast; omega)]
        push_cast
        omega

theorem file_new_snd (s : FSState) : (OS_File_New s).2 = s := by
  unfold OS_File_New
  by_cases hfull : find_free_sector s = FS_DISK_FULL
  · simp [hfull]
  · simp only [hfull, if_false]
    cases hfind : (List.range (MAX_FILE_NUMBER + 1)).find? (fun i => s.dir i == FILE_EMPTY) with
    | none => simp
    | some i =>
      have hp : s.dir i = FILE_EMPTY := by
        have := List.find?_some hfind
        simpa using this
      simp only
      cases s with
      | mk dir fat =>
        simp only [FSState.mk.injEq]
        refine ⟨?_, trivial⟩
        rw [← hp]
        exact upd_eq_self dir i

theorem mem_of_getLast?_my : ∀ (l : List Nat) (x : Nat), l.getLast? = some x → x ∈ l := by
  intro l
  induction l with
  | nil => intro x h; simp at h
  | cons a rest ih =>
    intro x h
    cases rest with
    | nil =>
      simp at h
      simp [h]
    | cons b rest2 =>
      rw [List.getLast?_cons_cons] at h
      exact List.mem_cons_of_mem a (ih x h)

theorem getLast?_cons_eq (a : Nat) (l : List Nat) :
    (a :: l).getLast? = some (l.getLastD a) := by
  rw [List.getLast?_eq_getLast (a :: l) (by simp), List.getLast_eq_getLastD]

theorem isChain_snoc (fat : Nat → Nat) (n : Nat) :
    ∀ (l : List Nat) (h L : Nat), isChain fat h l → l.getLast? = some L → l.Nodup →
      n ∉ l → upd fat L n n = SECTOR_FREE →
      isChain (upd fat L n) h (l ++ [n]) := by
  intro l
  induction l with
  | nil => intro h L _ hlast; simp at hlast
  | cons a rest ih =>
    intro h L hc hlast hnd hnin hfn
    obtain ⟨hha, hrest⟩ := hc
    cases rest with
    | nil =>
      have hLa : L = a := by
        simp at hlast
        omega
      subst hLa
      refine ⟨hha, ?_⟩
      show isChain (upd fat L n) (upd fat L n L) ([] ++ [n])
      rw [upd_self]
      exact ⟨rfl, hfn⟩
    | cons b rest2 =>
      have hLtail : (b :: rest2).getLast? = some L := by
        rw [← List.getLast?_cons_cons]
        exact hlast
      obtain ⟨hanin, htailnd⟩ := List.nodup_cons.1 hnd
      have hLmem : L ∈ b :: rest2 := mem_of_getLast?_my _ _ hLtail
      have haL : a ≠ L := fun he => hanin (he ▸ hLmem)
      refine ⟨hha, ?_⟩
      show isChain (upd fat L n) (upd fat L n a) ((b :: rest2) ++ [n])
      rw [upd_ne fat L n a haL]
      exact ih (fat a) L hrest hLtail htailnd
        (fun hn => hnin (List.mem_cons_of_mem a hn)) hfn

theorem append_fat_spec (s : FSState) (cnt : Nat → Nat) (ch : Nat → List Nat) (B : Nat)
    (hI : FSInv s cnt ch B) (num : Nat) (hnum : num ≤ MAX_FILE_NUMBER) (hBne : B ≠ 255) :
    ∃ s2, append_fat s num B = some s2 ∧
      FSInv s2 (upd cnt num (cnt num + 1))
        (fun i => if i = num then ch num ++ [B] else ch i) (B + 1) := by
  have hM : METADATA_SECTOR = 255 := rfl
  have hMF : MAX_FILE_NUMBER = 254 := rfl
  have hSF : SECTOR_FREE = 255 := rfl
  have hFE : FILE_EMPTY = 255 := rfl
  have hN : NUM_SECTORS = 256 := rfl
  have hBle := hI.bLe
  have hfatB : s.fat B = SECTOR_FREE := hI.fatHigh B (le_refl B)
  have hfat1 : upd s.fat B SECTOR_FREE = s.fat := by
    conv_lhs => rw [← hfatB]
    exact upd_eq_self s.fat B
  have hBnotch : ∀ i, B ∉ ch i := by
    intro i hmem
    have := hI.ltB i B hmem
    omega
  by_cases hde : s.dir num = FILE_EMPTY
  · have hchnil : ch num = [] := (dir_empty_iff_chain_nil s cnt ch B hI num hnum).1 hde
    refine ⟨{ dir := upd s.dir num B, fat := s.fat }, ?_, ?_⟩
    · simp only [append_fat]
      rw [hfat1, if_pos hde]
    · refine
        { bLe := by omega
          dirHigh := ?_
          chHigh := ?_
          isCh := ?_
          incr := ?_
          ltB := ?_
          fatHigh := ?_
          disj := ?_
          top := ?_
          cnts := ?_ }
      · intro i hi
        show upd s.dir num B i = FILE_EMPTY
        rw [upd_ne _ _ _ _ (by omega)]
        exact hI.dirHigh i hi
      · intro i hi
        show (if i = num then ch num ++ [B] else ch i) = []
        rw [if_neg (by omega)]
        exact hI.chHigh i hi
      · intro i hi
        by_cases hin : i = num
        · subst hin
          show isChain s.fat (upd s.dir i B i) (if i = i then ch i ++ [B] else ch i)
          rw [if_pos rfl, hchnil, upd_self]
          exact ⟨rfl, hfatB⟩
        · show isChain s.fat (upd s.dir num B i) (if i = num then ch num ++ [B] else ch i)
          rw [if_neg hin, upd_ne _ _ _ _ hin]
          exact hI.isCh i hi
      · intro i
        by_cases hin : i = num
        · subst hin
          show List.Chain' (· < ·) (if i = i then ch i ++ [B] else ch i)
          rw [if_pos rfl, hchnil]
          simp
        · show List.Chain' (· < ·) (if i = num then ch num ++ [B] else ch i)
          rw [if_neg hin]
          exact hI.incr i
      · intro i x hx
        by_cases hin : i = num
        · subst hin
          rw [if_pos rfl, hchnil] at hx
          simp at hx
          omega
        · rw [if_neg hin] at hx
          have := hI.ltB i x hx
          omega
      · intro j hj
        exact hI.fatHigh j (by omega)
      · intro i1 i2 hne x hx1 hx2
        by_cases h1 : i1 = num
        · subst h1
          rw [if_pos rfl, hchnil] at hx1
          rw [if_neg (Ne.symm hne)] at hx2
          simp at hx1
          subst hx1
          exact hBnotch i2 hx2
        · by_cases h2 : i2 = num
          · subst h2
            rw [if_neg h1] at hx1
            rw [if_pos rfl, hchnil] at hx2
            simp at hx2
            subst hx2
            exact hBnotch i1 hx1
          · rw [if_neg h1] at hx1
            rw [if_neg h2] at hx2
            exact hI.disj i1 i2 hne x hx1 hx2
      · intro _
        refine ⟨num, hnum, ?_⟩
        rw [if_pos rfl, hchnil]
        simp
      · intro i
        by_cases hin : i = num
        · subst hin
          show upd cnt i (cnt i + 1) i = (if i = i then ch i ++ [B] else ch i).length
          rw [upd_self, if_pos rfl, hchnil, hI.cnts i, hchnil]
          simp
        · show upd cnt num (cnt num + 1) i = (if i = num then ch num ++ [B] else ch i).length
          rw [upd_ne _ _ _ _ hin, if_neg hin]
          exact hI.cnts i
  · cases hch : ch num with
    | nil =>
      exact absurd ((dir_empty_iff_chain_nil s cnt ch B hI num hnum).2 hch) hde
    | cons a l =>
      have hc := hI.isCh num hnum
      rw [hch] at hc
      obtain ⟨hda, hrest⟩ := hc
      have hlast2 : (a :: l).getLast? = some (l.getLastD a) := getLast?_cons_eq a l
      have hLmem : l.getLastD a ∈ ch num := by
        rw [hch]
        exact List.getLastD_mem_cons l a
      have hLltB : l.getLastD a < B := hI.ltB num _ hLmem
      have hnd : (a :: l).Nodup := by
        rw [← hch]
        exact chain_lt_nodup _ (hI.incr num)
      have hBnin : B ∉ (a :: l) := by
        rw [← hch]
        exact hBnotch num
      have hlenl : (a :: l).length ≤ B := by
        rw [← hch]
        exact chain_len_le s cnt ch B hI num
      have hfat2B : upd s.fat (l.getLastD a) B B = SECTOR_FREE := by
        rw [upd_ne _ _ _ _ (by omega : B ≠ l.getLastD a)]
        exact hfatB
      have hgo := append_fat_go_of_isChain s.fat B l a (NUM_SECTORS + 1) hrest
        (fun x hx => chain_elem_ne_free s cnt ch B hI num x (by rw [hch]; simp [hx]))
        (by simp at hlenl; omega)
      refine ⟨{ dir := s.dir, fat := upd s.fat (l.getLastD a) B }, ?_, ?_⟩
      · simp only [append_fat]
        rw [hfat1, if_neg hde, hda, hgo]
      · have hagree : ∀ i, i ≠ num → ∀ x ∈ ch i, upd s.fat (l.getLastD a) B x = s.fat x := by
          intro i hi x hx
          refine upd_ne _ _ _ _ ?_
          intro hxL
          exact hI.disj num i (fun he => hi he.symm) x (by rw [hxL]; exact hLmem) hx
        refine
          { bLe := by omega
            dirHigh := ?_
            chHigh := ?_
            isCh := ?_
            incr := ?_
            ltB := ?_
            fatHigh := ?_
            disj := ?_
            top := ?_
            cnts := ?_ }
        · intro i hi
          exact hI.dirHigh i hi
        · intro i hi
          show (if i = num then (a :: l) ++ [B] else ch i) = []
          rw [if_neg (by omega)]
          exact hI.chHigh i hi
        · intro i hi
          by_cases hin : i = num
          · subst hin
            show isChain (upd s.fat (l.getLastD a) B) (s.dir i)
              (if i = i then (a :: l) ++ [B] else ch i)
            rw [if_pos rfl]
            exact isChain_snoc s.fat B (a :: l) (s.dir i) (l.getLastD a)
              ⟨hda, hrest⟩ hlast2 hnd hBnin hfat2B
          · show isChain (upd s.fat (l.getLastD a) B) (s.dir i)
              (if i = num then (a :: l) ++ [B] else ch i)
            rw [if_neg hin]
            exact isChain_congr s.fat _ (ch i) (s.dir i) (hagree i hin) (hI.isCh i hi)
        · intro i
          by_cases hin : i = num
          · subst hin
            show List.Chain' (· < ·) (if i = i then (a :: l) ++ [B] else ch i)
            rw [if_pos rfl]
            rw [List.chain'_append]
            refine ⟨by rw [← hch]; exact hI.incr i, by simp, ?_⟩
            intro x hx y hy
            rw [hlast2, Option.mem_some_iff] at hx
            simp only [List.head?_cons, Option.mem_some_iff] at hy
            subst hx
            subst hy
            exact hLltB
          · show List.Chain' (· < ·) (if i = num then (a :: l) ++ [B] else ch i)
            rw [if_neg hin]
            exact hI.incr i
        · intro i x hx
          by_cases hin : i = num
          · subst hin
            rw [if_pos rfl] at hx
            rcases List.mem_append.1 hx with hx1 | hx1
            · rw [← hch] at hx1
              have := hI.ltB i x hx1
              omega
            · simp at hx1
              omega
          · rw [if_neg hin] at hx
            have := hI.ltB i x hx
            omega
        · intro j hj
          show upd s.fat (l.getLastD a) B j = SECTOR_FREE
          rw [upd_ne _ _ _ _ (by omega : j ≠ l.getLastD a)]
          exact hI.fatHigh j (by omega)
        · intro i1 i2 hne x hx1 hx2
          by_cases h1 : i1 = num
          · subst h1
            rw [if_pos rfl] at hx1
            rw [if_neg (Ne.symm hne)] at hx2
            rcases List.mem_append.1 hx1 with hx1m | hx1m
            · rw [← hch] at hx1m
              exact hI.disj i1 i2 hne x hx1m hx2
            · simp at hx1m
              subst hx1m
              exact hBnotch i2 hx2
          · by_cases h2 : i2 = num
            · subst h2
              rw [if_neg h1] at hx1
              rw [if_pos rfl] at hx2
              rcases List.mem_append.1 hx2 with hx2m | hx2m
              · rw [← hch] at hx2m
                exact hI.disj i1 i2 hne x hx1 hx2m
              · simp at hx2m
                subst hx2m
                exact hBnotch i1 hx1
            · rw [if_neg h1] at hx1
              rw [if_neg h2] at hx2
              exact hI.disj i1 i2 hne x hx1 hx2
        · intro _
          refine ⟨num, hnum, ?_⟩
          rw [if_pos rfl]
          rw [List.getLast?_concat]
          simp
        · intro i
          by_cases hin : i = num
          · subst hin
            show upd cnt i (cnt i + 1) i = (if i = i then (a :: l) ++ [B] else ch i).length
            rw [upd_self, if_pos rfl, hI.cnts i, hch]
            simp
          · show upd cnt num (cnt num + 1) i =
              (if i = num then (a :: l) ++ [B] else ch i).length
            rw [upd_ne _ _ _ _ hin, if_neg hin]
            exact hI.cnts i

theorem fs_init_inv : FSInv OS_FS_Init (fun _ => 0) (fun _ => []) 0 := by
  refine
    { bLe := ?_
      dirHigh := ?_
      chHigh := ?_
      isCh := ?_
      incr := ?_
      ltB := ?_
      fatHigh := ?_
      disj := ?_
      top := ?_
      cnts := ?_ }
  · exact Nat.zero_le _
  · intro i _
    rfl
  · intro i _
    rfl
  · intro i _
    exact rfl
  · intro i
    exact List.chain'_nil
  · intro i x hx
    exact absurd hx (List.not_mem_nil x)
  · intro j _
    rfl
  · intro i1 i2 _ x hx
    exact absurd hx (List.not_mem_nil x)
  · intro h
    exact absurd h (by omega)
  · intro i
    rfl

theorem fsStep_inv (s : FSState) (cnt : Nat → Nat) (ch : Nat → List Nat) (B : Nat)
    (hI : FSInv s cnt ch B) (e : FSEvent) :
    ∃ s2 cnt2 ch2 B2, fsStep (s, cnt) e = some (s2, cnt2) ∧ FSInv s2 cnt2 ch2 B2 := by
  cases e with
  | newFile =>
    refine ⟨s, cnt, ch, B, ?_, hI⟩
    show some ((OS_File_New s).2, cnt) = some (s, cnt)
    rw [file_new_snd]
  | append num w =>
    have hMF : MAX_FILE_NUMBER = 254 := rfl
    have hFD : FS_DISK_FULL = 255 := rfl
    have hfs : find_free_sector s = B := find_free_sector_inv s cnt ch B hI
    have h0 : fsStep (s, cnt) (FSEvent.append num w) =
        match OS_File_Append_ram s num w with
        | some (r, s3) =>
          some (s3, if r = FS_SUCCESS then upd cnt num (cnt num + 1) else cnt)
        | none => none := rfl
    by_cases hnum : num > MAX_FILE_NUMBER
    · have hram : OS_File_Append_ram s num w = some (FS_ERROR, s) := by
        simp only [OS_File_Append_ram]
        rw [if_pos hnum]
      refine ⟨s, cnt, ch, B, ?_, hI⟩
      rw [h0, hram]
      show some (s, if FS_ERROR = FS_SUCCESS then upd cnt num (cnt num + 1) else cnt) =
        some (s, cnt)
      rw [if_neg (by decide)]
    · by_cases hBfull : B = FS_DISK_FULL
      · have hram : OS_File_Append_ram s num w = some (FS_DISK_FULL, s) := by
          simp only [OS_File_Append_ram]
          rw [if_neg hnum, hfs, if_pos hBfull]
        refine ⟨s, cnt, ch, B, ?_, hI⟩
        rw [h0, hram]
        show some (s, if FS_DISK_FULL = FS_SUCCESS then upd cnt num (cnt num + 1) else cnt) =
          some (s, cnt)
        rw [if_neg (by decide)]
      · by_cases hw : w = false
        · have hram : OS_File_Append_ram s num w = some (FS_ERROR, s) := by
            simp only [OS_File_Append_ram]
            rw [if_neg hnum, hfs, if_neg hBfull, if_pos hw]
          refine ⟨s, cnt, ch, B, ?_, hI⟩
          rw [h0, hram]
          show some (s, if FS_ERROR = FS_SUCCESS then upd cnt num (cnt num + 1) else cnt) =
            some (s, cnt)
          rw [if_neg (by decide)]
        · obtain ⟨s2, happ, hI2⟩ :=
            append_fat_spec s cnt ch B hI num (by omega) (by omega)
          have hram : OS_File_Append_ram s num w = some (FS_SUCCESS, s2) := by
            simp only [OS_File_Append_ram]
            rw [if_neg hnum, hfs, if_neg hBfull, if_neg hw, happ]
          refine ⟨s2, upd cnt num (cnt num + 1),
            (fun i => if i = num then ch num ++ [B] else ch i), B + 1, ?_, hI2⟩
          rw [h0, hram]
          show some (s2, if FS_SUCCESS = FS_SUCCESS then upd cnt num (cnt num + 1) else cnt) =
            some (s2, upd cnt num (cnt num + 1))
          rw [if_pos rfl]

theorem fsRunFrom_inv (evts : List FSEvent) :
    ∀ (s : FSState) (cnt : Nat → Nat) (ch : Nat → List Nat) (B : Nat), FSInv s cnt ch B →
      ∃ s2 cnt2 ch2 B2, fsRunFrom (s, cnt) evts = some (s2, cnt2) ∧ FSInv s2 cnt2 ch2 B2 := by
  induction evts with
  | nil =>
    intro s cnt ch B hI
    exact ⟨s, cnt, ch, B, rfl, hI⟩
  | cons e evts ih =>
    intro s cnt ch B hI
    obtain ⟨s1, cnt1, ch1, B1, hstep, hI1⟩ := fsStep_inv s cnt ch B hI e
    obtain ⟨s2, cnt2, ch2, B2, hrun, hI2⟩ := ih s1 cnt1 ch1 B1 hI1
    refine ⟨s2, cnt2, ch2, B2, ?_, hI2⟩
    simp only [fsRunFrom]
    rw [hstep]
    exact hrun

theorem fileChain_eq (s : FSState) (cnt : Nat → Nat) (ch : Nat → List Nat) (B : Nat)
    (hI : FSInv s cnt ch B) : ∀ i, fileChain s i = ch i := by
  intro i
  have hM : METADATA_SECTOR = 255 := rfl
  have hN : NUM_SECTORS = 256 := rfl
  have hB := hI.bLe
  by_cases hile : i ≤ MAX_FILE_NUMBER
  · have hlen : (ch i).length ≤ B := chain_len_le s cnt ch B hI i
    exact chainWalk_of_isChain s.fat (ch i) (s.dir i) (NUM_SECTORS + 1) (hI.isCh i hile)
      (fun x hx => chain_elem_ne_free s cnt ch B hI i x hx) (by omega)
  · rw [hI.chHigh i (by omega)]
    show chainWalk s.fat (s.dir i) (NUM_SECTORS + 1) = []
    rw [hI.dirHigh i (by omega)]
    rfl

theorem size_eq_cnt (s : FSState) (cnt : Nat → Nat) (ch : Nat → List Nat) (B : Nat)
    (hI : FSInv s cnt ch B) : ∀ num, OS_File_Size s num = cnt num := by
  intro num
  have hM : METADATA_SECTOR = 255 := rfl
  have hN : NUM_SECTORS = 256 := rfl
  have hB := hI.bLe
  rw [hI.cnts num]
  by_cases hnum : num > MAX_FILE_NUMBER
  · unfold OS_File_Size
    rw [if_pos hnum, hI.chHigh num hnum]
    rfl
  · cases hch : ch num with
    | nil =>
      have hde : s.dir num = FILE_EMPTY :=
        (dir_empty_iff_chain_nil s cnt ch B hI num (by omega)).2 hch
      unfold OS_File_Size
      rw [if_neg hnum]
      show (if s.dir num = FILE_EMPTY then 0 else file_size_loop s.fat (s.dir num) 0) =
        List.length []
      rw [if_pos hde]
      rfl
    | cons a l =>
      have hc := hI.isCh num (by omega)
      rw [hch] at hc
      have hde : s.dir num ≠ FILE_EMPTY := by
        rw [hc.1]
        exact chain_elem_ne_free s cnt ch B hI num a (by rw [hch]; simp)
      have hlen : (a :: l).length ≤ B := by
        rw [← hch]
        exact chain_len_le s cnt ch B hI num
      unfold OS_File_Size
      rw [if_neg hnum]
      show (if s.dir num = FILE_EMPTY then 0 else file_size_loop s.fat (s.dir num) 0) =
        (a :: l).length
      rw [if_neg hde]
      rw [file_size_loop_of_isChain s.fat (a :: l) (s.dir num) 0 (hch ▸ hI.isCh num (by omega))
        (fun x hx => chain_elem_ne_free s cnt ch B hI num x (by rw [hch]; exact hx))
        (by simp at hlen ⊢; omega)]
      omega

theorem foldr_max_le (l : List Nat) (m : Nat) (h : ∀ x ∈ l, x ≤ m) : l.foldr max 0 ≤ m := by
  induction l with
  | nil => exact Nat.zero_le m
  | cons a t ih =>
    simp only [List.foldr_cons]
    exact max_le (h a (by simp)) (ih (fun x hx => h x (by simp [hx])))

theorem le_foldr_max (l : List Nat) (x : Nat) (hx : x ∈ l) : x ≤ l.foldr max 0 := by
  induction l with
  | nil => exact absurd hx (List.not_mem_nil x)
  | cons a t ih =>
    simp only [List.foldr_cons]
    rcases List.mem_cons.1 hx with h | h
    · rw [h]
      exact le_max_left _ _
    · exact le_trans (ih h) (le_max_right _ _)

theorem specFree_inv (s : FSState) (cnt : Nat → Nat) (ch : Nat → List Nat) (B : Nat)
    (hI : FSInv s cnt ch B) : specFreeSector s = B := by
  have hMF : MAX_FILE_NUMBER = 254 := rfl
  have hfc := fileChain_eq s cnt ch B hI
  by_cases hB0 : B = 0
  · have hnil : lastSectors s = [] := by
      unfold lastSectors
      rw [List.filterMap_eq_nil_iff]
      intro i _
      rw [hfc i]
      cases hch : ch i with
      | nil => rfl
      | cons a l =>
        have hlt := hI.ltB i a (by rw [hch]; simp)
        exact absurd hlt (by omega)
    unfold specFreeSector
    rw [if_pos hnil, hB0]
  · obtain ⟨i0, hi0le, hi0last⟩ := hI.top (by omega)
    have hmem : (B - 1) ∈ lastSectors s := by
      unfold lastSectors
      rw [List.mem_filterMap]
      exact ⟨i0, List.mem_range.2 (by omega), by rw [hfc i0]; exact hi0last⟩
    have hne : lastSectors s ≠ [] := by
      intro h
      rw [h] at hmem
      exact absurd hmem (List.not_mem_nil _)
    have hub : ∀ x ∈ lastSectors s, x ≤ B - 1 := by
      intro x hx
      unfold lastSectors at hx
      rw [List.mem_filterMap] at hx
      obtain ⟨i, _, hlast⟩ := hx
      rw [hfc i] at hlast
      have hxm : x ∈ ch i := mem_of_getLast?_my (ch i) x hlast
      have := hI.ltB i x hxm
      omega
    have h1 : (lastSectors s).foldr max 0 = B - 1 :=
      le_antisymm (foldr_max_le _ _ hub) (le_foldr_max _ _ hmem)
    unfold specFreeSector
    rw [if_neg hne, h1]
    omega

/-- C1: run any sequence of OS_File_New and OS_File_Append events from the
OS_FS_Init state. Then (i) no sector index lies in the chains of two
different files, (ii) every file chain is strictly increasing in sector
index, (iii) OS_File_Size num equals the number of appends to num that
returned FS_SUCCESS, and find_free_sector equals the spec allocation
policy: one more than the maximum last sector over all files, or 0 when no
file has a sector. -/
theorem C1_file_chain_invariants (evts : List FSEvent) :
    ∃ s cnt, fsRun evts = some (s, cnt) ∧
      (∀ i1 i2, i1 ≠ i2 → ∀ x ∈ fileChain s i1, x ∉ fileChain s i2) ∧
      (∀ num, List.Chain' (· < ·) (fileChain s num)) ∧
      (∀ num, OS_File_Size s num = cnt num) ∧
      find_free_sector s = specFreeSector s := by
  obtain ⟨s, cnt, ch, B, hrun, hI⟩ :=
    fsRunFrom_inv evts OS_FS_Init (fun _ => 0) (fun _ => []) 0 fs_init_inv
  refine ⟨s, cnt, hrun, ?_, ?_, ?_, ?_⟩
  · intro i1 i2 hne x hx1
    rw [fileChain_eq s cnt ch B hI i1] at hx1
    rw [fileChain_eq s cnt ch B hI i2]
    exact hI.disj i1 i2 hne x hx1
  · intro num
    rw [fileChain_eq s cnt ch B hI num]
    exact hI.incr num
  · exact size_eq_cnt s cnt ch B hI
  · rw [find_free_sector_inv s cnt ch B hI, specFree_inv s cnt ch B hI]
